import Mathlib

/-!
# Verification of the adr-manager state store (`src/plugins/store.js`)

This file gives a shallow embedding of the repository/ADR state-synchronization
and change-tracking engine of the adr-manager application, and proves/refutes
the frozen claims about it.

Modelling conventions:

* JavaScript objects become Lean structures.  Fields whose *presence* the code
  tests (`_.has(adr, "originalMd")`, `"newAdr" in changedFile`) are modelled as
  `Option`: `none` means "key absent", `some v` means "key present with value
  `v`".  `path` and `id` are modelled as always-present (`String` / `Int`): the
  data model declares them, and no claim hinges on their absence.
* JavaScript reference equality (`includes`, `===`, `indexOf`) is modelled as
  structural equality (`DecidableEq`), the standard shallow-embedding choice
  (the spec's design notes themselves ask for key-equality semantics).
  In-place mutation of a shared object is modelled by replacing every
  structurally equal occurrence of the old value.
* `localStorage` writes (`updateLocalStorageRepositories`) are external
  fire-and-forget side effects; they do not change the in-memory state and are
  omitted from the state transformers.
* Thrown exceptions become `Except`/`Option` results; `console.log` diagnostics
  are dropped; `this.$emit(...)` becomes an explicit event list.
-/

namespace AdrManager

/-- One Architectural Decision Record, as stored in `repo.adrs`
    (`store.js` works with plain objects carrying these keys).
    `originalMd`, `editedMd` and `newAdr` are `Option` because the code tests
    their presence (`isValidAdr`, `"newAdr" in changedFile`). -/
structure Adr where
  id : Int
  path : String
  originalMd : Option String
  editedMd : Option String
  newAdr : Option Bool
deriving DecidableEq, Repr

/-- A repository as handled by the store: `fullName`, `activeBranch`,
    `branches`, the authoritative `adrs` list, the locally-created
    `addedAdrs` and the pending-deletion `deletedAdrs`. -/
structure Repository where
  fullName : String
  activeBranch : String
  branches : List String
  adrs : List Adr
  addedAdrs : List Adr
  deletedAdrs : List Adr
deriving DecidableEq, Repr

/-- Events emitted by the store via `this.$emit`. -/
inductive StoreEvent where
  | openAdrEv (adr : Adr)
  | setModeEv (mode : String)
deriving DecidableEq, Repr

/-- The store's reactive `data`: `currentRepository`, `currentlyEditedAdr`,
    `addedRepositories`, `mode`. -/
structure StoreState where
  currentRepository : Option Repository
  currentlyEditedAdr : Option Adr
  addedRepositories : List Repository
  mode : String
deriving DecidableEq, Repr

/-- A file entry handed back by the remote publish operation
    (`updateLocalStorageAfterCommit` reads `file.type` and `file.path`). -/
structure PushedFile where
  path : String
  type : String
deriving DecidableEq, Repr

/-- The record built by `dataStructureDataCommit` (and, with no `value` key,
    by `deletedFilesInRepo`).  `title` is `path.split("/")[2]`, which is
    `undefined` (`none`) when the path has fewer than three segments; the
    missing `value` key of deleted-file records is modelled as `none`. -/
structure CommitFile where
  title : Option String
  value : Option String
  path : String
  fileSelected : Bool
  fileStatus : String
deriving DecidableEq, Repr

/-! ## JavaScript list/string primitives used by the store -/

/-- `Array.prototype.findIndex`: index of the first match, `-1` if none. -/
def findIndexJs {α : Type} (p : α → Bool) (l : List α) : Int :=
  match l.findIdx? p with
  | some i => (i : Int)
  | none => -1

/-- `arr.splice(start, 1)`: removes (at most) one element at the actual start
    index, which is `max(len + start, 0)` for negative `start` and
    `min(start, len)` otherwise.  Returns the removed element (if any) and the
    remaining list. -/
def spliceRemoveOne {α : Type} (l : List α) (start : Int) : Option α × List α :=
  let actualStart : Nat :=
    if start < 0 then ((l.length : Int) + start).toNat else min start.toNat l.length
  (l[actualStart]?, l.eraseIdx actualStart)

/-- `String.prototype.split` with a single-character separator, on the
    character-list representation. -/
def splitOnChar (c : Char) : List Char → List (List Char)
  | [] => [[]]
  | x :: xs =>
    let r := splitOnChar c xs
    if x = c then [] :: r else (x :: r.headD []) :: r.tail

/-- `path.split(c)` for a one-character separator `c`. -/
def jsSplit (c : Char) (s : String) : List String :=
  (splitOnChar c s.toList).map (fun cs => String.mk cs)

/-- `String.prototype.padStart(4, "0")`. -/
def padStart4 (s : String) : String :=
  if s.length < 4 then String.mk (List.replicate (4 - s.length) '0') ++ s else s

/-! ## External collaborators not present under `src/` -/

/-- Modelled from the spec: `naturalCase2snakeCase` from `parser.js` (which is
    not under `src/`): the title is "converted to a normalized
    lowercase-with-underscores form" — every character lowercased, spaces
    replaced by underscores. -/
def naturalCase2snakeCase (s : String) : String :=
  String.mk (s.toList.map (fun c => if c = ' ' then '_' else c.toLower))

/-- Modelled from the spec: the filename sanitizer (the `sanitize-filename`
    package, consumed as a pure external function): the file name is
    "sanitized for filesystem safety" — characters that are unsafe in file
    names (path separators, reserved punctuation, control characters) are
    removed. -/
def sanitize (s : String) : String :=
  String.mk (s.toList.filter
    (fun c => !(['/', '\\', '?', '<', '>', ':', '*', '|', '"'].contains c)
      && decide (32 ≤ c.toNat)))

/-- Modelled from the spec: `Repository.addAdr` from `classes.js` (which is
    not under `src/`): `createNewAdr` "registers it in the repository (`adrs`
    and `addedAdrs`)", so `addAdr` appends the ADR to both lists. -/
def Repository.addAdr (r : Repository) (a : Adr) : Repository :=
  { r with adrs := r.adrs ++ [a], addedAdrs := r.addedAdrs ++ [a] }

/-! ## Validation -/

/-- `isValidAdr` (`store.js`): `_.has(adr, "originalMd") && _.has(adr,
    "editedMd") && _.has(adr, "path")`.  `path` is always present in this
    model, so only the two content keys are tested. -/
def isValidAdr (a : Adr) : Bool :=
  a.originalMd.isSome && a.editedMd.isSome

/-! ## Store operations -/

/-- `openAdr(adr)`: no-op when `adr` is (reference-)equal to the currently
    edited ADR; otherwise looks up the first added repository whose `adrs`
    contains `adr`, and — when `adr` is valid and such a repository exists —
    updates `currentRepository`/`currentlyEditedAdr` and emits `open-adr`;
    otherwise logs and leaves the state unchanged.  The argument is an
    `Option` because `updateRepository` may pass the result of a failed
    `find` (JS `undefined`). -/
def openAdr (s : StoreState) (adr? : Option Adr) : StoreState × List StoreEvent :=
  if adr? = s.currentlyEditedAdr then
    (s, [])
  else
    match adr? with
    | none => (s, [])
    | some adr =>
      match s.addedRepositories.find? (fun repo => decide (adr ∈ repo.adrs)) with
      | some repo =>
        if isValidAdr adr then
          ({ s with currentRepository := some repo, currentlyEditedAdr := some adr },
            [StoreEvent.openAdrEv adr])
        else (s, [])
      | none => (s, [])

/-- `openAnyAdr()`: prefer the current repository's first ADR; else the first
    ADR of the first repository that has one; else (when `currentRepository`
    is unset) point `currentRepository` at the first added repository. -/
def openAnyAdr (s : StoreState) : StoreState × List StoreEvent :=
  let reposWithAdrs := s.addedRepositories.filter (fun repo => !repo.adrs.isEmpty)
  match s.currentRepository with
  | some cr =>
    if cr ∈ reposWithAdrs then openAdr s cr.adrs.head?
    else if !reposWithAdrs.isEmpty then openAdr s (reposWithAdrs.head?.bind (·.adrs.head?))
    else (s, [])
  | none =>
    if !reposWithAdrs.isEmpty then openAdr s (reposWithAdrs.head?.bind (·.adrs.head?))
    else ({ s with currentRepository := s.addedRepositories.head? }, [])

/-- `ensureSomeAdrIsOpened()`: when the currently edited ADR is unset,
    invalid, or not contained in any added repository, clear both pointers
    and call `openAnyAdr`. -/
def ensureSomeAdrIsOpened (s : StoreState) : StoreState × List StoreEvent :=
  match s.currentlyEditedAdr with
  | none => openAnyAdr { s with currentlyEditedAdr := none, currentRepository := none }
  | some cur =>
    if isValidAdr cur && s.addedRepositories.any (fun repo => decide (cur ∈ repo.adrs)) then
      (s, [])
    else
      openAnyAdr { s with currentlyEditedAdr := none, currentRepository := none }

/-- The repositories of `repoList` whose `fullName` is already among the added
    repositories' names (the `alreadyAddedRepos` filter of `addRepositories`). -/
def collidingRepos (s : StoreState) (repoList : List Repository) : List Repository :=
  repoList.filter
    (fun repoToAdd => (s.addedRepositories.map (·.fullName)).contains repoToAdd.fullName)

/-- `addRepositories(repoList)`: throws when any incoming `fullName` collides
    with an already-added one (the message joins all colliding names);
    otherwise appends the whole list, persists, and ensures some ADR is
    opened.  The throw happens before any mutation, so the error case leaves
    the state untouched. -/
def addRepositories (s : StoreState) (repoList : List Repository) :
    Except String (StoreState × List StoreEvent) :=
  let alreadyAddedRepos := collidingRepos s repoList
  if alreadyAddedRepos.length > 0 then
    .error ("I won't add an already added repository to the store! " ++
      String.intercalate ", " (alreadyAddedRepos.map (·.fullName)))
  else
    .ok (ensureSomeAdrIsOpened
      { s with addedRepositories := s.addedRepositories ++ repoList })

/-- `removeRepository(repoToRemove)`: filter by `fullName`, then restore the
    opened-ADR invariant. -/
def removeRepository (s : StoreState) (repoToRemove : Repository) :
    StoreState × List StoreEvent :=
  ensureSomeAdrIsOpened
    { s with addedRepositories :=
        s.addedRepositories.filter (fun repo => decide (repo.fullName ≠ repoToRemove.fullName)) }

/-- `updateRepository(updatedRepository)`: replace the repository with the
    same `fullName` in place (`splice(index, 1, updatedRepository)`); when the
    currently edited ADR belonged to the old copy, re-open the ADR with the
    same path inside the new copy.  When no repository matches, the JS code
    dereferences `undefined` and throws (`none` here). -/
def updateRepository (s : StoreState) (updatedRepository : Repository) :
    Option (StoreState × List StoreEvent) :=
  match s.addedRepositories.findIdx? (fun repo => decide (repo.fullName = updatedRepository.fullName)) with
  | none => none
  | some index =>
    match s.addedRepositories[index]? with
    | none => none
    | some oldRepo =>
      let s1 := { s with addedRepositories := s.addedRepositories.set index updatedRepository }
      match s.currentlyEditedAdr with
      | some cur =>
        if decide (cur ∈ oldRepo.adrs) then
          some (openAdr s1 (updatedRepository.adrs.find? (fun adr => decide (adr.path = cur.path))))
        else some (s1, [])
      | none => some (s1, [])

/-- Replace (structurally) every occurrence of the ADR `old` inside a
    repository's three lists by `nw` — the model of an in-place mutation of a
    shared ADR object seen through all of its aliases. -/
def replaceAdrInRepo (old nw : Adr) (r : Repository) : Repository :=
  { r with
    adrs := r.adrs.map (fun a => if a = old then nw else a),
    addedAdrs := r.addedAdrs.map (fun a => if a = old then nw else a),
    deletedAdrs := r.deletedAdrs.map (fun a => if a = old then nw else a) }

/-- `String.prototype.trim` on the character-list representation (whitespace
    stripped from both ends). -/
def trimChars (l : List Char) : List Char :=
  ((l.dropWhile (fun c => c.isWhitespace)).reverse.dropWhile (fun c => c.isWhitespace)).reverse

/-- The first line of `md`, stripped of its leading `#` markers
    (`replace(/^#+/, "")`) and trimmed — the title extraction of
    `updateMdOfCurrentAdr`. -/
def extractTitle (md : String) : String :=
  String.mk (trimChars ((((jsSplit '\n' md).headD "").toList).dropWhile (fun c => c = '#')))

/-- The rebuilt file name of `updateMdOfCurrentAdr`:
    `sanitize(id.toString().padStart(4, "0") + "-" + naturalCase2snakeCase(title) + ".md")`. -/
def newAdrFileName (a : Adr) (md : String) : String :=
  sanitize (padStart4 (toString a.id) ++ "-" ++ naturalCase2snakeCase (extractTitle md) ++ ".md")

/-- `updateMdOfCurrentAdr(md)`: sets `editedMd` of the currently edited ADR;
    when that ADR is contained in the current repository's `addedAdrs`,
    additionally replaces the last component of its path
    (`path[path.length - 1] = sanitize(...)`).  The JS code mutates the shared
    ADR object in place; the model replaces every alias of the old value.
    `none` models the TypeError raised when no ADR is currently edited. -/
def updateMdOfCurrentAdr (s : StoreState) (md : String) : Option StoreState :=
  match s.currentlyEditedAdr with
  | none => none
  | some cur =>
    let inAdded : Bool :=
      match s.currentRepository with
      | some cr => decide (cur ∈ cr.addedAdrs)
      | none => false
    let cur1 := { cur with editedMd := some md }
    let cur2 :=
      if inAdded then
        let path := jsSplit '/' cur.path
        { cur1 with path := String.intercalate "/" (path.set (path.length - 1) (newAdrFileName cur md)) }
      else cur1
    some { s with
      currentlyEditedAdr := some cur2,
      currentRepository := s.currentRepository.map (replaceAdrInRepo cur cur2),
      addedRepositories := s.addedRepositories.map (replaceAdrInRepo cur cur2) }

/-- `createNewAdr(repo)`: `undefined` (and no change) when `repo` is not an
    added repository; otherwise builds a fresh ADR with
    `id = Math.max(...repo.adrs.map(adr => adr.id), -1) + 1`, a path
    `docs/adr/<padded id>-<template title>.md`, the template content and
    `newAdr: true`, registers it via `repo.addAdr`, and returns it.  The
    template constructor (`ArchitecturalDecisionRecord.createNewAdr` /
    `adr2md`, from `classes.js`/`parser.js`, not under `src/`) is abstracted
    by the `templateTitle`/`templateMd` parameters; the in-place mutation of
    `repo` is modelled by replacing its aliases. -/
def createNewAdr (s : StoreState) (templateTitle templateMd : String) (repo : Repository) :
    StoreState × Option Adr :=
  if repo ∈ s.addedRepositories then
    let id := (repo.adrs.map (fun adr => adr.id)).foldl max (-1) + 1
    let newAdr : Adr :=
      { originalMd := some "",
        editedMd := some templateMd,
        id := id,
        path := "docs/adr/" ++ padStart4 (toString id) ++ "-" ++ templateTitle ++ ".md",
        newAdr := some true }
    let repo1 := repo.addAdr newAdr
    ({ s with
        addedRepositories := s.addedRepositories.map (fun r => if r = repo then repo1 else r),
        currentRepository := s.currentRepository.map (fun r => if r = repo then repo1 else r) },
      some newAdr)
  else (s, none)

/-- The repository part of `deleteAdr(adr, repo)`: splice `adr` out of
    `repo.adrs` (note: a not-found index of `-1` is passed straight to
    `splice`, which then removes the *last* element); when `adr` is in
    `addedAdrs`, splice it out of there too, otherwise push the spliced-out
    element onto `deletedAdrs`.  (`if (!repo.deletedAdrs) repo.deletedAdrs =
    []` is a no-op here because `deletedAdrs` is always a list; when `adrs`
    is empty the spliced-out element is JS `undefined` and the push is
    modelled as appending nothing.) -/
def deleteAdrRepo (adr : Adr) (repo : Repository) : Repository :=
  let adrIndexAdr := findIndexJs (fun adrEl => decide (adrEl = adr)) repo.adrs
  let adrIndexNewAdr := findIndexJs (fun adrEl => decide (adrEl = adr)) repo.addedAdrs
  let removed := spliceRemoveOne repo.adrs adrIndexAdr
  if adrIndexNewAdr ≥ 0 then
    { repo with
      adrs := removed.2,
      addedAdrs := (spliceRemoveOne repo.addedAdrs adrIndexNewAdr).2 }
  else
    { repo with
      adrs := removed.2,
      deletedAdrs := repo.deletedAdrs ++ removed.1.toList }

/-- `deleteAdr(adr, repo)` at store level: mutate `repo` (through all its
    aliases), then restore the opened-ADR invariant. -/
def deleteAdr (s : StoreState) (adr : Adr) (repo : Repository) :
    StoreState × List StoreEvent :=
  let repo1 := deleteAdrRepo adr repo
  ensureSomeAdrIsOpened
    { s with
      addedRepositories := s.addedRepositories.map (fun r => if r = repo then repo1 else r),
      currentRepository := s.currentRepository.map (fun r => if r = repo then repo1 else r) }

/-! ## Diff/Commit calculator -/

/-- `dataStructureDataCommit(file, fileType)`. -/
def dataStructureDataCommit (file : Adr) (fileType : String) : CommitFile :=
  { title := (jsSplit '/' file.path)[2]?,
    value := file.editedMd,
    path := file.path,
    fileSelected := false,
    fileStatus := fileType }

/-- `changedFilesInRepo(repoName)`: for every added repository with that name,
    every ADR without a `newAdr` key (`!("newAdr" in changedFile)`) whose
    `editedMd` differs from `originalMd`, projected as a `"changed"` record.
    The accumulation mirrors the nested `for` loops. -/
def changedFilesInRepo (s : StoreState) (repoName : String) : List CommitFile :=
  s.addedRepositories.foldl
    (fun changedFiles repo =>
      if repoName = repo.fullName then
        repo.adrs.foldl
          (fun acc changedFile =>
            if changedFile.newAdr = none then
              if changedFile.editedMd ≠ changedFile.originalMd then
                acc ++ [dataStructureDataCommit changedFile "changed"]
              else acc
            else acc)
          changedFiles
      else changedFiles)
    []

/-- `deletedFilesInRepo(repoName)`: every entry of `deletedAdrs`, projected to
    `{path, title, fileSelected, fileStatus: "deleted"}` (no `value` key). -/
def deletedFilesInRepo (s : StoreState) (repoName : String) : List CommitFile :=
  s.addedRepositories.foldl
    (fun deletedFiles repo =>
      if repoName = repo.fullName then
        repo.deletedAdrs.foldl
          (fun acc deletedFile =>
            acc ++ [{ title := (jsSplit '/' deletedFile.path)[2]?,
                      value := none,
                      path := deletedFile.path,
                      fileSelected := false,
                      fileStatus := "deleted" }])
          deletedFiles
      else deletedFiles)
    []

/-- `newFilesInRepo(repoName)`: every entry of `addedAdrs`, projected as a
    `"new"` record. -/
def newFilesInRepo (s : StoreState) (repoName : String) : List CommitFile :=
  s.addedRepositories.foldl
    (fun newFiles repo =>
      if repoName = repo.fullName then
        repo.addedAdrs.foldl
          (fun acc newFile => acc ++ [dataStructureDataCommit newFile "new"])
          newFiles
      else newFiles)
    []

/-! ## Post-commit reconciliation

`handleUpdateLocalStorageNew`/`...Deleted` remove a matching entry with
`splice` *while iterating the same array with `for...of`*.  The loop below
models that faithfully: the iteration index advances by one each step over the
mutating array (so the element after a removed one is skipped), and the splice
removes the first occurrence of the current entry (`indexOf`). -/

/-- The `for (entry of arr) if (path === entry.path) arr.splice(arr.indexOf(entry), 1)`
    loop, at iteration index `i` of the current array.  The first argument is
    recursion fuel: the index grows by one per step and the array never
    grows, so starting with fuel `arr.length` (and `i = 0`) the loop's own
    exit condition `i ≥ arr.length` always fires before the fuel runs out —
    and when both fire the result (`arr`) is the same. -/
def forOfRemoveAux (p : String) : Nat → List Adr → Nat → List Adr
  | 0, arr, _ => arr
  | fuel + 1, arr, i =>
    if h : i < arr.length then
      if p = (arr.get ⟨i, h⟩).path then
        forOfRemoveAux p fuel
          (arr.eraseIdx (arr.findIdx (fun a => decide (a = arr.get ⟨i, h⟩)))) (i + 1)
      else
        forOfRemoveAux p fuel arr (i + 1)
    else arr

/-- The removal loop, started at index 0. -/
def forOfRemove (p : String) (arr : List Adr) : List Adr :=
  forOfRemoveAux p arr.length arr 0

/-- `handleUpdateLocalStorageNew(file, repoName)` on the repository list:
    remove the matching-path entry from `addedAdrs` (splice-while-iterating),
    and on every matching entry of `adrs` delete the `newAdr` key and set
    `originalMd := editedMd`. -/
def handleUpdateLocalStorageNew (file : PushedFile) (repoName : String)
    (repos : List Repository) : List Repository :=
  repos.map (fun repo =>
    if repoName = repo.fullName then
      { repo with
        addedAdrs := forOfRemove file.path repo.addedAdrs,
        adrs := repo.adrs.map (fun repoEntry =>
          if file.path = repoEntry.path then
            { repoEntry with newAdr := none, originalMd := repoEntry.editedMd }
          else repoEntry) }
    else repo)

/-- `handleUpdateLocalStorageChanged(file, repoName)`: on every matching entry
    of `adrs`, set `originalMd := editedMd`. -/
def handleUpdateLocalStorageChanged (file : PushedFile) (repoName : String)
    (repos : List Repository) : List Repository :=
  repos.map (fun repo =>
    if repoName = repo.fullName then
      { repo with
        adrs := repo.adrs.map (fun repoEntry =>
          if file.path = repoEntry.path then
            { repoEntry with originalMd := repoEntry.editedMd }
          else repoEntry) }
    else repo)

/-- `handleUpdateLocalStorageDeleted(file, repoName)`: remove the
    matching-path entry from `deletedAdrs` (splice-while-iterating). -/
def handleUpdateLocalStorageDeleted (file : PushedFile) (repoName : String)
    (repos : List Repository) : List Repository :=
  repos.map (fun repo =>
    if repoName = repo.fullName then
      { repo with deletedAdrs := forOfRemove file.path repo.deletedAdrs }
    else repo)

/-- One `switch (file.type)` dispatch of `updateLocalStorageAfterCommit`. -/
def applyPushedFile (file : PushedFile) (repoName : String)
    (repos : List Repository) : List Repository :=
  match file.type with
  | "new" => handleUpdateLocalStorageNew file repoName repos
  | "changed" => handleUpdateLocalStorageChanged file repoName repos
  | "deleted" => handleUpdateLocalStorageDeleted file repoName repos
  | _ => repos

/-- `updateLocalStorageAfterCommit(pushedFiles, repoName)` on the repository
    list (the trailing `updateLocalStorageRepositories()` is an external
    persistence write). -/
def updateLocalStorageAfterCommit (pushedFiles : List PushedFile) (repoName : String)
    (repos : List Repository) : List Repository :=
  pushedFiles.foldl (fun rs file => applyPushedFile file repoName rs) repos

/-! ## Specification predicates -/

/-- The store invariant of the data model: whenever `currentlyEditedAdr` is
    set, it is a valid ADR and is contained in the `adrs` list of some added
    repository. -/
def storeInvB (s : StoreState) : Bool :=
  match s.currentlyEditedAdr with
  | none => true
  | some cur => isValidAdr cur && s.addedRepositories.any (fun repo => decide (cur ∈ repo.adrs))

/-- All paths in the list are pairwise distinct. -/
def pathsUniqB : List Adr → Bool
  | [] => true
  | a :: t => t.all (fun b => decide (a.path ≠ b.path)) && pathsUniqB t

/-- All repository names in the list are pairwise distinct. -/
def namesUniqB : List Repository → Bool
  | [] => true
  | r :: t => t.all (fun r2 => decide (r.fullName ≠ r2.fullName)) && namesUniqB t

/-- The repository invariants of the data model (spec §3): `addedAdrs ⊆ adrs`;
    `path` is unique across `adrs`; members of `addedAdrs` (never-published
    documents) carry the `newAdr: true` flag; `deletedAdrs` holds documents
    removed from `adrs` (so their paths no longer occur in `adrs`). -/
def repoInvariant (r : Repository) : Prop :=
  (∀ a ∈ r.addedAdrs, a ∈ r.adrs) ∧
  pathsUniqB r.adrs = true ∧
  (∀ a ∈ r.addedAdrs, a.newAdr = some true) ∧
  (∀ d ∈ r.deletedAdrs, ∀ a ∈ r.adrs, d.path ≠ a.path)

/-- The store-level data-model invariants relevant to the diff calculator:
    every added repository satisfies `repoInvariant`, and repositories are
    unique by `fullName`. -/
def storeReposInvariant (s : StoreState) : Prop :=
  (∀ r ∈ s.addedRepositories, repoInvariant r) ∧ namesUniqB s.addedRepositories = true

/-- No path occurs in both commit-file lists. -/
def pathsDisjoint (l1 l2 : List CommitFile) : Prop :=
  ∀ c ∈ l1, ∀ d ∈ l2, c.path ≠ d.path

/-- The post-state of one pushed file: its path no longer occurs where the
    handler removes it, and matching `adrs` entries carry the published
    baseline. -/
def processedFile (file : PushedFile) (repoName : String) (repos : List Repository) : Prop :=
  ∀ r ∈ repos, repoName = r.fullName →
    (file.type = "new" →
      (∀ a ∈ r.addedAdrs, a.path ≠ file.path) ∧
      (∀ a ∈ r.adrs, a.path = file.path → a.newAdr = none ∧ a.originalMd = a.editedMd)) ∧
    (file.type = "changed" → ∀ a ∈ r.adrs, a.path = file.path → a.originalMd = a.editedMd) ∧
    (file.type = "deleted" → ∀ a ∈ r.deletedAdrs, a.path ≠ file.path)

/-- Paths are unique within `addedAdrs` and within `deletedAdrs` of every
    repository with the given name (the hypothesis under which the splice
    loops of the commit reconciliation behave like filters). -/
def uniqAddedDeleted (repoName : String) (repos : List Repository) : Prop :=
  ∀ r ∈ repos, repoName = r.fullName →
    pathsUniqB r.addedAdrs = true ∧ pathsUniqB r.deletedAdrs = true

/-- The claim's reading of `changedFilesInRepo`, with the `newAdr` flag
    interpreted by *value* (absence = `false`), so that an ADR carrying
    `newAdr: false` still counts as changed.  Compare with
    `changedFilesInRepo`, which tests key *presence*. -/
def changedFilesInRepoSpec (s : StoreState) (repoName : String) : List CommitFile :=
  s.addedRepositories.flatMap (fun repo =>
    if repoName = repo.fullName then
      (repo.adrs.filter (fun a =>
        decide (a.newAdr ≠ some true) && decide (a.editedMd ≠ a.originalMd))).map
        (fun a => dataStructureDataCommit a "changed")
    else [])

/-! ## Concrete sample states used by counterexamples and witnesses -/

/-- A published, unmodified ADR. -/
def adrA : Adr :=
  { id := 0, path := "docs/adr/0000-a.md", originalMd := some "x", editedMd := some "x",
    newAdr := none }

/-- A published ADR with local edits. -/
def adrB : Adr :=
  { id := 1, path := "docs/adr/0001-b.md", originalMd := some "old", editedMd := some "new",
    newAdr := none }

/-- A locally created, never-published ADR. -/
def adrC : Adr :=
  { id := 2, path := "docs/adr/0002-c.md", originalMd := some "", editedMd := some "# C\nbody",
    newAdr := some true }

/-- A previously published ADR marked for deletion. -/
def adrD : Adr :=
  { id := 3, path := "docs/adr/0003-d.md", originalMd := some "d", editedMd := some "d",
    newAdr := none }

/-- An edited ADR that carries an explicit `newAdr: false` key. -/
def adrFlagFalse : Adr :=
  { id := 4, path := "docs/adr/0004-e.md", originalMd := some "p", editedMd := some "q",
    newAdr := some false }

/-- A sample repository satisfying the data-model invariants. -/
def repoSample : Repository :=
  { fullName := "o/r", activeBranch := "main", branches := ["main"],
    adrs := [adrA, adrB, adrC], addedAdrs := [adrC], deletedAdrs := [adrD] }

/-- A sample store focused on `repoSample`. -/
def storeSample : StoreState :=
  { currentRepository := some repoSample, currentlyEditedAdr := some adrA,
    addedRepositories := [repoSample], mode := "basic" }

/-- The `repoSample` replacement used by the C1 counterexample: same
    `fullName`, but no ADRs at all — in particular no ADR whose path equals
    the opened ADR's path. -/
def repoReplacementEmpty : Repository :=
  { fullName := "o/r", activeBranch := "main", branches := ["main"],
    adrs := [], addedAdrs := [], deletedAdrs := [] }

/-- The store state left behind by
    `updateRepository storeSample repoReplacementEmpty`: the opened ADR still
    points into the replaced copy. -/
def storeAfterBadUpdate : StoreState :=
  { currentRepository := some repoSample, currentlyEditedAdr := some adrA,
    addedRepositories := [repoReplacementEmpty], mode := "basic" }

/-- A store whose only repository holds an edited ADR carrying
    `newAdr: false` (used against C5). -/
def storeFlagFalse : StoreState :=
  { currentRepository := none, currentlyEditedAdr := none,
    addedRepositories := [{ fullName := "o/r", activeBranch := "main", branches := ["main"],
                            adrs := [adrFlagFalse], addedAdrs := [], deletedAdrs := [] }],
    mode := "basic" }

/-- Two distinct deleted ADRs sharing one path (used against C6). -/
def adrDup1 : Adr :=
  { id := 5, path := "docs/adr/0005-dup.md", originalMd := some "a", editedMd := some "a",
    newAdr := none }

/-- Second deleted ADR with the same path as `adrDup1`. -/
def adrDup2 : Adr :=
  { id := 6, path := "docs/adr/0005-dup.md", originalMd := some "b", editedMd := some "b",
    newAdr := none }

/-- A repository list whose matching repository has two same-path entries in
    `deletedAdrs`. -/
def reposDupDeleted : List Repository :=
  [{ fullName := "o/r", activeBranch := "main", branches := ["main"],
     adrs := [], addedAdrs := [], deletedAdrs := [adrDup1, adrDup2] }]

/-- The pushed-file batch confirming the deletion of that shared path. -/
def pushedDeletedDup : List PushedFile :=
  [{ path := "docs/adr/0005-dup.md", type := "deleted" }]

/-- A pushed-file batch publishing the new ADR `adrC`. -/
def pushedNewC : List PushedFile :=
  [{ path := "docs/adr/0002-c.md", type := "new" }]

/-- An empty store. -/
def storeEmpty : StoreState :=
  { currentRepository := none, currentlyEditedAdr := none, addedRepositories := [],
    mode := "basic" }

/-- `adrA` with fresh edits — a valid replacement ADR at the same path. -/
def adrA2 : Adr :=
  { id := 0, path := "docs/adr/0000-a.md", originalMd := some "x", editedMd := some "x2",
    newAdr := none }

/-- A replacement for `repoSample` that still contains an ADR at the opened
    ADR's path. -/
def repoReplacementGood : Repository :=
  { fullName := "o/r", activeBranch := "main", branches := ["main"],
    adrs := [adrA2], addedAdrs := [], deletedAdrs := [] }

/-- A repository with a fresh name, addable next to `repoSample`. -/
def repoOther : Repository :=
  { fullName := "o/r2", activeBranch := "main", branches := ["main"],
    adrs := [], addedAdrs := [], deletedAdrs := [] }

/-- A never-published ADR with id 3, still carrying a stale path. -/
def adrNew3 : Adr :=
  { id := 3, path := "docs/adr/0003-x.md", originalMd := some "", editedMd := some "",
    newAdr := some true }

/-- A repository holding only the unpublished `adrNew3`. -/
def repoNew3 : Repository :=
  { fullName := "o/r3", activeBranch := "main", branches := ["main"],
    adrs := [adrNew3], addedAdrs := [adrNew3], deletedAdrs := [] }

/-- A store currently editing the unpublished `adrNew3`. -/
def storeNew3 : StoreState :=
  { currentRepository := some repoNew3, currentlyEditedAdr := some adrNew3,
    addedRepositories := [repoNew3], mode := "basic" }

/-- The `newAdr` object built inside `createNewAdr` (named here so theorems
    can refer to it). -/
def createdAdr (repo : Repository) (templateTitle templateMd : String) : Adr :=
  { originalMd := some "",
    editedMd := some templateMd,
    id := (repo.adrs.map (fun adr => adr.id)).foldl max (-1) + 1,
    path := "docs/adr/" ++
      padStart4 (toString ((repo.adrs.map (fun adr => adr.id)).foldl max (-1) + 1)) ++
      "-" ++ templateTitle ++ ".md",
    newAdr := some true }

/-- The store state produced by a successful `createNewAdr` (named here so
    theorems can refer to it). -/
def createNewAdrState (s : StoreState) (templateTitle templateMd : String)
    (repo : Repository) : StoreState :=
  { s with
    addedRepositories := s.addedRepositories.map
      (fun r => if r = repo then repo.addAdr (createdAdr repo templateTitle templateMd) else r),
    currentRepository := s.currentRepository.map
      (fun r => if r = repo then repo.addAdr (createdAdr repo templateTitle templateMd) else r) }

/-! # Theorems

### Helper lemmas: `findIndex`/`splice` -/

theorem findIdx?_cons_eq {α : Type} (p : α → Bool) (x : α) (xs : List α) :
    (x :: xs).findIdx? p = if p x then some 0 else (xs.findIdx? p).map (· + 1) := by
  rw [List.findIdx?_cons]
  split
  · rfl
  · rw [List.findIdx?_succ]

theorem findIdx?_self_spec {α : Type} [DecidableEq α] (a : α) :
    ∀ l : List α, a ∈ l →
      ∃ j : Nat, l.findIdx? (fun x => decide (x = a)) = some j ∧
        l[j]? = some a ∧ l.eraseIdx j = l.erase a
  | [], h => absurd h (List.not_mem_nil a)
  | x :: xs, h => by
    by_cases hx : x = a
    · refine ⟨0, ?_, ?_, ?_⟩
      · rw [findIdx?_cons_eq]
        simp [hx]
      · simp [hx]
      · rw [List.erase_cons]
        simp [hx]
    · have ha : a ∈ xs := by
        rcases List.mem_cons.mp h with h1 | h1
        · exact absurd h1.symm hx
        · exact h1
      obtain ⟨j, hj1, hj2, hj3⟩ := findIdx?_self_spec a xs ha
      refine ⟨j + 1, ?_, ?_, ?_⟩
      · rw [findIdx?_cons_eq]
        simp [hx, hj1]
      · simpa using hj2
      · rw [List.eraseIdx_cons_succ, List.erase_cons, hj3]
        simp [hx]

theorem spliceRemoveOne_found {α : Type} [DecidableEq α] (l : List α) (a : α) (h : a ∈ l) :
    spliceRemoveOne l (findIndexJs (fun x => decide (x = a)) l) = (some a, l.erase a) := by
  obtain ⟨j, hj1, hj2, hj3⟩ := findIdx?_self_spec a l h
  have hjlen : j < l.length := (List.getElem?_eq_some.mp hj2).1
  unfold spliceRemoveOne findIndexJs
  rw [hj1]
  have hneg : ¬ ((j : Int) < 0) := by omega
  simp only [hneg, if_false, Int.toNat_natCast, Nat.min_eq_left (Nat.le_of_lt hjlen)]
  rw [hj2, hj3]

theorem findIndexJs_not_found {α : Type} [DecidableEq α] (l : List α) (a : α) (h : a ∉ l) :
    findIndexJs (fun x => decide (x = a)) l = -1 := by
  unfold findIndexJs
  rw [List.findIdx?_eq_none_iff.mpr]
  intro x hx
  simp only [decide_eq_false_iff_not]
  exact fun heq => h (heq ▸ hx)

theorem spliceRemoveOne_neg_one {α : Type} (l : List α) (h : l ≠ []) :
    spliceRemoveOne l (-1) = (some (l.getLast h), l.dropLast) := by
  have hlen : 0 < l.length := List.length_pos.mpr h
  unfold spliceRemoveOne
  have hstart : (((l.length : Int)) + (-1)).toNat = l.length - 1 := by omega
  have hneg : ((-1 : Int) < 0) := by omega
  simp only [hneg, if_true, hstart]
  have h1 : l[l.length - 1]? = some (l.getLast h) := by
    rw [← List.getLast?_eq_getElem?, List.getLast?_eq_getLast_of_ne_nil h]
  have h2 : l.eraseIdx (l.length - 1) = l.dropLast := by
    rw [List.eraseIdx_eq_take_drop_succ, List.dropLast_eq_take]
    have : l.length - 1 + 1 = l.length := by omega
    rw [this, List.drop_length, List.append_nil]
  rw [h1, h2]

/-! ### C10: `deleteAdr` with an absent ADR removes the last element -/

/-- C10: for a repository with a non-empty `adrs` list and an `adr` argument
    contained in neither `adrs` nor `addedAdrs`, `deleteAdr(adr, repo)` drops
    the *last* element of `adrs` and appends that element (not the argument)
    to `deletedAdrs`, because the not-found index `-1` goes straight into
    `splice`. -/
theorem deleteAdr_not_found_removes_last (repo : Repository) (adr : Adr)
    (hne : repo.adrs ≠ []) (hmem : adr ∉ repo.adrs) (hadded : adr ∉ repo.addedAdrs) :
    (deleteAdrRepo adr repo).adrs = repo.adrs.dropLast ∧
    (deleteAdrRepo adr repo).deletedAdrs = repo.deletedAdrs ++ [repo.adrs.getLast hne] ∧
    (deleteAdrRepo adr repo).addedAdrs = repo.addedAdrs := by
  unfold deleteAdrRepo
  rw [findIndexJs_not_found repo.adrs adr hmem, findIndexJs_not_found repo.addedAdrs adr hadded]
  simp only [spliceRemoveOne_neg_one repo.adrs hne]
  norm_num

/-- Witness for C10 at a concrete input: deleting an unknown ADR from
    `repoSample` removes `adrC` (the last element) and marks *it* deleted. -/
theorem deleteAdr_not_found_removes_last_witness :
    (deleteAdrRepo adrDup1 repoSample).adrs = [adrA, adrB] ∧
    (deleteAdrRepo adrDup1 repoSample).deletedAdrs = [adrD, adrC] ∧
    (deleteAdrRepo adrDup1 repoSample).addedAdrs = [adrC] := by
  have h := deleteAdr_not_found_removes_last repoSample adrDup1
    (by decide) (by decide) (by decide)
  simpa using h

/-! ### C3: `deleteAdr` on a present ADR -/

/-- C3: deleting an ADR that is a member of `repo.adrs` removes it from
    `adrs`; when it is also in `addedAdrs` it is discarded (removed from
    `addedAdrs`, `deletedAdrs` untouched), otherwise it is appended to
    `deletedAdrs` (`addedAdrs` untouched) — exactly one of the two. -/
theorem deleteAdr_member_spec (repo : Repository) (adr : Adr) (hmem : adr ∈ repo.adrs) :
    ((adr ∈ repo.addedAdrs →
        (deleteAdrRepo adr repo).adrs = repo.adrs.erase adr ∧
        (deleteAdrRepo adr repo).addedAdrs = repo.addedAdrs.erase adr ∧
        (deleteAdrRepo adr repo).deletedAdrs = repo.deletedAdrs) ∧
      (adr ∉ repo.addedAdrs →
        (deleteAdrRepo adr repo).adrs = repo.adrs.erase adr ∧
        (deleteAdrRepo adr repo).addedAdrs = repo.addedAdrs ∧
        (deleteAdrRepo adr repo).deletedAdrs = repo.deletedAdrs ++ [adr])) := by
  constructor
  · intro hin
    obtain ⟨j, hj1, hget, herase⟩ := findIdx?_self_spec adr repo.addedAdrs hin
    unfold deleteAdrRepo
    have hidx : findIndexJs (fun adrEl => decide (adrEl = adr)) repo.addedAdrs = (j : Int) := by
      unfold findIndexJs
      rw [hj1]
    have hge : ((j : Int) ≥ 0) := by omega
    have hs2 : (spliceRemoveOne repo.addedAdrs ((j : Int))).2 = repo.addedAdrs.erase adr := by
      have hjlen : j < repo.addedAdrs.length := (List.getElem?_eq_some.mp hget).1
      unfold spliceRemoveOne
      have hneg : ¬ ((j : Int) < 0) := by omega
      simp only [hneg, if_false, Int.toNat_natCast, Nat.min_eq_left (Nat.le_of_lt hjlen)]
      exact herase
    simp only [spliceRemoveOne_found repo.adrs adr hmem, hidx, hge, if_pos, hs2]
    norm_num
  · intro hout
    unfold deleteAdrRepo
    have hidx := findIndexJs_not_found repo.addedAdrs adr hout
    simp only [spliceRemoveOne_found repo.adrs adr hmem, hidx]
    norm_num

/-- Witness for C3 at concrete inputs: deleting the unpublished `adrC`
    discards it; deleting the published `adrB` marks it deleted. -/
theorem deleteAdr_member_spec_witness :
    ((deleteAdrRepo adrC repoSample).adrs = [adrA, adrB] ∧
      (deleteAdrRepo adrC repoSample).addedAdrs = [] ∧
      (deleteAdrRepo adrC repoSample).deletedAdrs = [adrD]) ∧
    ((deleteAdrRepo adrB repoSample).adrs = [adrA, adrC] ∧
      (deleteAdrRepo adrB repoSample).addedAdrs = [adrC] ∧
      (deleteAdrRepo adrB repoSample).deletedAdrs = [adrD, adrB]) := by
  constructor
  · have h := (deleteAdr_member_spec repoSample adrC (by decide)).1 (by decide)
    simpa using h
  · have h := (deleteAdr_member_spec repoSample adrB (by decide)).2 (by decide)
    simpa using h

/-! ### Helper lemmas: the open/ensure operations do not touch the repository list -/

theorem openAdr_addedRepositories (s : StoreState) (x : Option Adr) :
    (openAdr s x).1.addedRepositories = s.addedRepositories := by
  unfold openAdr
  repeat' split
  all_goals rfl

theorem openAnyAdr_addedRepositories (s : StoreState) :
    (openAnyAdr s).1.addedRepositories = s.addedRepositories := by
  unfold openAnyAdr
  dsimp only
  repeat' split
  all_goals first | rfl | apply openAdr_addedRepositories

theorem ensureSomeAdrIsOpened_addedRepositories (s : StoreState) :
    (ensureSomeAdrIsOpened s).1.addedRepositories = s.addedRepositories := by
  unfold ensureSomeAdrIsOpened
  repeat' split
  all_goals first | rfl | apply openAnyAdr_addedRepositories

/-! ### C2: `addRepositories` rejects colliding names, appends otherwise -/

theorem collidingRepos_ne_nil_iff (s : StoreState) (repoList : List Repository) :
    collidingRepos s repoList ≠ [] ↔
      ∃ r ∈ repoList, ∃ r2 ∈ s.addedRepositories, r.fullName = r2.fullName := by
  unfold collidingRepos
  rw [Ne, List.filter_eq_nil_iff]
  constructor
  · intro h
    by_contra hno
    push_neg at hno
    apply h
    intro r hr hcont
    have hmem : r.fullName ∈ s.addedRepositories.map (·.fullName) := List.elem_iff.mp hcont
    obtain ⟨r2, hr2, heq⟩ := List.mem_map.mp hmem
    exact hno r hr r2 hr2 heq.symm
  · rintro ⟨r, hr, r2, hr2, heq⟩ hall
    exact hall r hr (List.elem_iff.mpr (List.mem_map.mpr ⟨r2, hr2, heq.symm⟩))

/-- C2: when an incoming repository's `fullName` collides with an added one,
    `addRepositories` throws an error listing all colliding names (and, the
    throw preceding any mutation, leaves the store untouched); otherwise it
    appends the whole input list in order. -/
theorem addRepositories_spec (s : StoreState) (repoList : List Repository) :
    ((∃ r ∈ repoList, ∃ r2 ∈ s.addedRepositories, r.fullName = r2.fullName) →
      addRepositories s repoList = .error
        ("I won't add an already added repository to the store! " ++
          String.intercalate ", " ((collidingRepos s repoList).map (·.fullName))) ∧
      collidingRepos s repoList ≠ []) ∧
    ((¬ ∃ r ∈ repoList, ∃ r2 ∈ s.addedRepositories, r.fullName = r2.fullName) →
      ∃ s2 ev, addRepositories s repoList = .ok (s2, ev) ∧
        s2.addedRepositories = s.addedRepositories ++ repoList) := by
  constructor
  · intro hex
    have hne : collidingRepos s repoList ≠ [] := (collidingRepos_ne_nil_iff s repoList).mpr hex
    have hpos : (collidingRepos s repoList).length > 0 := List.length_pos.mpr hne
    constructor
    · unfold addRepositories
      rw [if_pos hpos]
    · exact hne
  · intro hno
    have hnil : collidingRepos s repoList = [] := by
      by_contra hne
      exact hno ((collidingRepos_ne_nil_iff s repoList).mp hne)
    have hlen : ¬ ((collidingRepos s repoList).length > 0) := by
      rw [hnil]
      simp
    refine
      ⟨(ensureSomeAdrIsOpened { s with addedRepositories := s.addedRepositories ++ repoList }).1,
        (ensureSomeAdrIsOpened { s with addedRepositories := s.addedRepositories ++ repoList }).2,
        ?_, ?_⟩
    · unfold addRepositories
      rw [if_neg hlen]
    · exact ensureSomeAdrIsOpened_addedRepositories
        { s with addedRepositories := s.addedRepositories ++ repoList }

/-- Witness for C2 at concrete inputs: re-adding `repoSample` throws the
    collision error naming `o/r` and a fresh repository is appended in
    order. -/
theorem addRepositories_spec_witness :
    addRepositories storeSample [repoSample] =
      .error "I won't add an already added repository to the store! o/r" ∧
    (addRepositories storeSample [repoOther]).map (fun p => p.1.addedRepositories) =
      .ok [repoSample, repoOther] := by
  constructor
  · have h := (addRepositories_spec storeSample [repoSample]).1
      ⟨repoSample, by decide, repoSample, by decide, rfl⟩
    rw [h.1]
    rfl
  · obtain ⟨s2, ev, h1, h2⟩ := (addRepositories_spec storeSample [repoOther]).2 (by decide)
    rw [h1]
    simp only [Except.map]
    rw [h2]
    rfl

/-! ### C9: `openAdr` behaviour -/

/-- C9: `openAdr` is a no-op on the already-open ADR; on a valid ADR contained
    in some added repository it points `currentRepository` at the (first such)
    containing repository, points `currentlyEditedAdr` at the ADR, and emits
    `open-adr`; otherwise it changes nothing and emits nothing. -/
theorem openAdr_spec (s : StoreState) (adr : Adr) :
    (some adr = s.currentlyEditedAdr → openAdr s (some adr) = (s, [])) ∧
    (some adr ≠ s.currentlyEditedAdr → isValidAdr adr = true →
      (∃ r ∈ s.addedRepositories, adr ∈ r.adrs) →
      ∃ repo, s.addedRepositories.find? (fun r => decide (adr ∈ r.adrs)) = some repo ∧
        repo ∈ s.addedRepositories ∧ adr ∈ repo.adrs ∧
        openAdr s (some adr) =
          ({ s with currentRepository := some repo, currentlyEditedAdr := some adr },
            [StoreEvent.openAdrEv adr])) ∧
    (some adr ≠ s.currentlyEditedAdr →
      (isValidAdr adr = false ∨ ∀ r ∈ s.addedRepositories, adr ∉ r.adrs) →
      openAdr s (some adr) = (s, [])) := by
  refine ⟨?_, ?_, ?_⟩
  · intro h
    unfold openAdr
    rw [if_pos h]
  · intro hne hval hex
    have hsome : (s.addedRepositories.find? (fun r => decide (adr ∈ r.adrs))).isSome := by
      rw [List.find?_isSome]
      obtain ⟨r, hr, hmem⟩ := hex
      exact ⟨r, hr, by simpa using hmem⟩
    obtain ⟨repo, hrepo⟩ := Option.isSome_iff_exists.mp hsome
    refine ⟨repo, hrepo, List.mem_of_find?_eq_some hrepo, ?_, ?_⟩
    · simpa using List.find?_some hrepo
    · unfold openAdr
      rw [if_neg hne]
      dsimp only
      rw [hrepo]
      dsimp only
      rw [if_pos hval]
  · intro hne hbad
    unfold openAdr
    rw [if_neg hne]
    dsimp only
    rcases hbad with hval | hnomem
    · cases hfind : s.addedRepositories.find? (fun r => decide (adr ∈ r.adrs)) with
      | none => rfl
      | some repo =>
        dsimp only
        rw [hval]
        simp
    · have hfind : s.addedRepositories.find? (fun r => decide (adr ∈ r.adrs)) = none :=
        List.find?_eq_none.mpr (fun r hr => by simpa using hnomem r hr)
      rw [hfind]

/-- Witness for C9 at concrete inputs: re-opening the open `adrA` is a no-op;
    opening the reachable `adrB` updates both pointers and emits `open-adr`;
    opening an unreachable ADR is a silent no-op. -/
theorem openAdr_spec_witness :
    openAdr storeSample (some adrA) = (storeSample, []) ∧
    openAdr storeSample (some adrB) =
      ({ storeSample with currentRepository := some repoSample, currentlyEditedAdr := some adrB },
        [StoreEvent.openAdrEv adrB]) ∧
    openAdr storeSample (some adrDup1) = (storeSample, []) := by
  refine ⟨?_, ?_, ?_⟩
  · exact (openAdr_spec storeSample adrA).1 (by decide)
  · obtain ⟨repo, hfind, _, _, hres⟩ := (openAdr_spec storeSample adrB).2.1 (by decide) (by decide)
      ⟨repoSample, by decide, by decide⟩
    have hrepo : repo = repoSample := by
      have : (storeSample.addedRepositories.find? (fun r => decide (adrB ∈ r.adrs))) =
          some repoSample := by decide
      rw [this] at hfind
      exact (Option.some_inj.mp hfind).symm
    rw [hres, hrepo]
  · exact (openAdr_spec storeSample adrDup1).2.2 (by decide) (Or.inr (by decide))

/-! ### Helper lemmas: `Math.max(...ids, -1)` as a fold -/

theorem le_foldl_max (l : List Int) (c : Int) : c ≤ l.foldl max c := by
  induction l generalizing c with
  | nil => simp
  | cons x xs ih =>
    simp only [List.foldl_cons]
    exact le_trans (le_max_left c x) (ih (max c x))

theorem mem_le_foldl_max (l : List Int) (c : Int) : ∀ x ∈ l, x ≤ l.foldl max c := by
  induction l generalizing c with
  | nil => simp
  | cons y ys ih =>
    intro x hx
    rcases List.mem_cons.mp hx with rfl | hx2
    · simp only [List.foldl_cons]
      exact le_trans (le_max_right c x) (le_foldl_max ys (max c x))
    · exact ih (max c y) x hx2

theorem foldl_max_mem (l : List Int) (c : Int) : l.foldl max c = c ∨ l.foldl max c ∈ l := by
  induction l generalizing c with
  | nil => left; rfl
  | cons y ys ih =>
    simp only [List.foldl_cons]
    rcases ih (max c y) with h | h
    · rcases max_cases c y with ⟨h2, _⟩ | ⟨h2, _⟩
      · left
        rw [h, h2]
      · right
        rw [h, h2]
        exact List.mem_cons_self y ys
    · right
      exact List.mem_cons_of_mem y h

/-! ### C4: `createNewAdr` -/

/-- C4: `createNewAdr` returns nothing (and changes nothing) when `repo` is
    not an added repository; otherwise the created ADR's id is the successor
    of the maximum id of `repo.adrs` (0 for an empty repository), its path
    starts with `docs/adr/` followed by the 4-digit-padded id, and it is
    registered in both `adrs` and `addedAdrs` of the updated repository.
    (Ids are non-negative integers per the data model, which the second part
    assumes.) -/
theorem createNewAdr_spec (s : StoreState) (tT tM : String) (repo : Repository) :
    (repo ∉ s.addedRepositories → createNewAdr s tT tM repo = (s, none)) ∧
    (repo ∈ s.addedRepositories → (∀ a ∈ repo.adrs, 0 ≤ a.id) →
      ∃ newAdr s2, createNewAdr s tT tM repo = (s2, some newAdr) ∧
        (repo.adrs = [] → newAdr.id = 0) ∧
        (repo.adrs ≠ [] →
          (∀ a ∈ repo.adrs, a.id < newAdr.id) ∧ (∃ a ∈ repo.adrs, newAdr.id = a.id + 1)) ∧
        (∃ rest, newAdr.path = "docs/adr/" ++ padStart4 (toString newAdr.id) ++ rest) ∧
        (∃ r2 ∈ s2.addedRepositories, newAdr ∈ r2.adrs ∧ newAdr ∈ r2.addedAdrs)) := by
  constructor
  · intro hnot
    unfold createNewAdr
    rw [if_neg hnot]
  · intro hmem hpos
    refine ⟨createdAdr repo tT tM, createNewAdrState s tT tM repo, ?_, ?_, ?_, ?_, ?_⟩
    · unfold createNewAdr
      rw [if_pos hmem]
      rfl
    · intro hnil
      show (repo.adrs.map (fun adr => adr.id)).foldl max (-1) + 1 = 0
      rw [hnil]
      rfl
    · intro hne
      constructor
      · intro a ha
        show a.id < (repo.adrs.map (fun adr => adr.id)).foldl max (-1) + 1
        have := mem_le_foldl_max (repo.adrs.map (fun adr => adr.id)) (-1) a.id
          (List.mem_map.mpr ⟨a, ha, rfl⟩)
        omega
      · rcases foldl_max_mem (repo.adrs.map (fun adr => adr.id)) (-1) with h | h
        · obtain ⟨a, ha⟩ := List.exists_mem_of_ne_nil repo.adrs hne
          have h1 := mem_le_foldl_max (repo.adrs.map (fun adr => adr.id)) (-1) a.id
            (List.mem_map.mpr ⟨a, ha, rfl⟩)
          have h2 := hpos a ha
          exfalso
          omega
        · obtain ⟨a, ha, haid⟩ := List.mem_map.mp h
          refine ⟨a, ha, ?_⟩
          show (repo.adrs.map (fun adr => adr.id)).foldl max (-1) + 1 = a.id + 1
          rw [haid]
    · exact ⟨"-" ++ tT ++ ".md", by simp [createdAdr, String.append_assoc]⟩
    · refine ⟨repo.addAdr (createdAdr repo tT tM), ?_, ?_, ?_⟩
      · show _ ∈ s.addedRepositories.map _
        refine List.mem_map.mpr ⟨repo, hmem, ?_⟩
        rw [if_pos rfl]
      · exact List.mem_append_right _ (List.mem_singleton.mpr rfl)
      · exact List.mem_append_right _ (List.mem_singleton.mpr rfl)

/-- Witness for C4 at concrete inputs: creating in `repoSample` (max id 2)
    yields id 3 registered in both lists; creating in a non-added repository
    returns nothing. -/
theorem createNewAdr_spec_witness :
    ((createNewAdr storeSample "t" "m" repoSample).2.map (fun a => a.id) = some 3) ∧
    createNewAdr storeSample "t" "m" repoOther = (storeSample, none) := by
  constructor
  · obtain ⟨newAdr, s2, h1, _, h3, _, _⟩ :=
      (createNewAdr_spec storeSample "t" "m" repoSample).2 (by decide) (by decide)
    obtain ⟨hlt, a, ha, hid⟩ := h3 (by decide)
    rw [h1]
    have h2 : a.id ≤ 2 := by
      have : ∀ x ∈ repoSample.adrs, x.id ≤ 2 := by decide
      exact this a ha
    have h0 : adrC ∈ repoSample.adrs := by decide
    have h4 := hlt adrC h0
    have h5 : adrC.id = 2 := by decide
    show some newAdr.id = some 3
    rw [Option.some_inj]
    omega
  · exact (createNewAdr_spec storeSample "t" "m" repoOther).1 (by decide)

/-! ### Helper lemmas: path splitting and last-segment replacement -/

theorem splitOnChar_ne_nil (c : Char) (l : List Char) : splitOnChar c l ≠ [] := by
  cases l with
  | nil => simp [splitOnChar]
  | cons x xs =>
    unfold splitOnChar
    dsimp only
    split <;> simp

theorem jsSplit_ne_nil (c : Char) (s : String) : jsSplit c s ≠ [] := by
  unfold jsSplit
  intro h
  exact splitOnChar_ne_nil c s.toList (List.map_eq_nil_iff.mp h)

theorem set_last_eq_dropLast_append {α : Type} (x : α) :
    ∀ l : List α, l ≠ [] → l.set (l.length - 1) x = l.dropLast ++ [x]
  | [], h => absurd rfl h
  | [a], _ => rfl
  | a :: b :: t, _ => by
    have ih := set_last_eq_dropLast_append x (b :: t) (List.cons_ne_nil b t)
    show (a :: b :: t).set (t.length + 1) x = _
    rw [List.set_cons_succ]
    have hlen : (b :: t).length - 1 = t.length := by simp
    rw [hlen] at ih
    rw [ih]
    rfl

/-! ### C7: `updateMdOfCurrentAdr` -/

/-- C7: `updateMdOfCurrentAdr(md)` sets `editedMd` of the current ADR to
    `md`; when the ADR is a member of the current repository's `addedAdrs`,
    only the last path component is replaced by the sanitized
    `<4-digit id>-<snake-cased first line of md>.md` name; otherwise the path
    is untouched. -/
theorem updateMdOfCurrentAdr_spec (s : StoreState) (md : String) (cur : Adr)
    (hcur : s.currentlyEditedAdr = some cur) :
    ∃ s2, updateMdOfCurrentAdr s md = some s2 ∧
      ∃ cur2, s2.currentlyEditedAdr = some cur2 ∧
        cur2.editedMd = some md ∧ cur2.id = cur.id ∧
        ((∃ cr, s.currentRepository = some cr ∧ cur ∈ cr.addedAdrs) →
          cur2.path = String.intercalate "/"
            ((jsSplit '/' cur.path).dropLast ++
              [sanitize (padStart4 (toString cur.id) ++ "-" ++
                naturalCase2snakeCase (extractTitle md) ++ ".md")])) ∧
        ((¬ ∃ cr, s.currentRepository = some cr ∧ cur ∈ cr.addedAdrs) →
          cur2.path = cur.path) := by
  unfold updateMdOfCurrentAdr
  rw [hcur]
  dsimp only
  cases hcr : s.currentRepository with
  | none =>
    dsimp only
    refine ⟨_, rfl, _, rfl, rfl, rfl, ?_, ?_⟩
    · rintro ⟨cr, hcr2, _⟩
      exact absurd hcr2 (by simp)
    · intro _
      rfl
  | some cr =>
    dsimp only
    by_cases hmem : cur ∈ cr.addedAdrs
    · have hdec : decide (cur ∈ cr.addedAdrs) = true := decide_eq_true hmem
      rw [hdec]
      refine ⟨_, rfl, _, rfl, rfl, rfl, ?_, ?_⟩
      · intro _
        show String.intercalate "/"
            ((jsSplit '/' cur.path).set ((jsSplit '/' cur.path).length - 1)
              (newAdrFileName cur md)) = _
        rw [set_last_eq_dropLast_append (newAdrFileName cur md) (jsSplit '/' cur.path)
          (jsSplit_ne_nil '/' cur.path)]
        rfl
      · intro hno
        exact absurd ⟨cr, rfl, hmem⟩ hno
    · have hdec : decide (cur ∈ cr.addedAdrs) = false := decide_eq_false hmem
      rw [hdec]
      refine ⟨_, rfl, _, rfl, rfl, rfl, ?_, ?_⟩
      · rintro ⟨cr2, hcr2, hmem2⟩
        have : cr2 = cr := by
          injection hcr2 with h
          exact h.symm
        rw [this] at hmem2
        exact absurd hmem2 hmem
      · intro _
        rfl

/-- Witness for C7 at the claim's concrete example: an unpublished ADR with
    id 3, edited to `"# My Decision\nbody"`, ends up at
    `docs/adr/0003-my_decision.md`. -/
theorem updateMdOfCurrentAdr_spec_witness :
    (updateMdOfCurrentAdr storeNew3 "# My Decision\nbody").map
      (fun s2 => s2.currentlyEditedAdr.map (fun a => (a.path, a.editedMd))) =
      some (some ("docs/adr/0003-my_decision.md", some "# My Decision\nbody")) := by
  obtain ⟨s2, h1, cur2, h2, h3, _, h5, _⟩ :=
    updateMdOfCurrentAdr_spec storeNew3 "# My Decision\nbody" adrNew3 rfl
  have hpath := h5 ⟨repoNew3, rfl, by decide⟩
  rw [h1]
  show some (s2.currentlyEditedAdr.map (fun a => (a.path, a.editedMd))) = _
  rw [h2]
  have : cur2.path = "docs/adr/0003-my_decision.md" := by
    rw [hpath]
    decide
  rw [Option.map_some', this, h3]

/-! ### Helper lemmas: the diff-set folds as filter/map -/

theorem changedFiles_inner_foldl :
    ∀ (adrs : List Adr) (acc : List CommitFile),
      adrs.foldl
        (fun acc2 changedFile =>
          if changedFile.newAdr = none then
            if changedFile.editedMd ≠ changedFile.originalMd then
              acc2 ++ [dataStructureDataCommit changedFile "changed"]
            else acc2
          else acc2) acc =
      acc ++ (adrs.filter
        (fun a => decide (a.newAdr = none) && decide (a.editedMd ≠ a.originalMd))).map
        (fun a => dataStructureDataCommit a "changed")
  | [], acc => by simp
  | a :: t, acc => by
    rw [List.foldl_cons]
    by_cases h1 : a.newAdr = none
    · by_cases h2 : a.editedMd ≠ a.originalMd
      · rw [if_pos h1, if_pos h2, changedFiles_inner_foldl t]
        simp [List.filter_cons, h1, h2]
      · rw [if_pos h1, if_neg h2, changedFiles_inner_foldl t]
        simp [List.filter_cons, h1, h2]
    · rw [if_neg h1, changedFiles_inner_foldl t]
      simp [List.filter_cons, h1]

theorem changedFiles_outer_foldl (repoName : String) :
    ∀ (repos : List Repository) (acc : List CommitFile),
      repos.foldl
        (fun changedFiles repo =>
          if repoName = repo.fullName then
            repo.adrs.foldl
              (fun acc2 changedFile =>
                if changedFile.newAdr = none then
                  if changedFile.editedMd ≠ changedFile.originalMd then
                    acc2 ++ [dataStructureDataCommit changedFile "changed"]
                  else acc2
                else acc2) changedFiles
          else changedFiles) acc =
      acc ++ repos.flatMap (fun repo =>
        if repoName = repo.fullName then
          (repo.adrs.filter
            (fun a => decide (a.newAdr = none) && decide (a.editedMd ≠ a.originalMd))).map
            (fun a => dataStructureDataCommit a "changed")
        else [])
  | [], acc => by simp
  | r :: t, acc => by
    rw [List.foldl_cons]
    by_cases hname : repoName = r.fullName
    · rw [if_pos hname, changedFiles_inner_foldl r.adrs acc, changedFiles_outer_foldl repoName t]
      simp [hname, List.append_assoc]
    · rw [if_neg hname, changedFiles_outer_foldl repoName t]
      simp [hname]

/-- C5 (amended): `changedFilesInRepo` returns exactly the ADRs of the
    matching repositories' `adrs` lists that do not carry the `newAdr` key at
    all and whose `editedMd` differs from `originalMd`, each projected by
    `dataStructureDataCommit` with status `"changed"`; an ADR whose
    `editedMd` equals its `originalMd` never appears. -/
theorem changedFilesInRepo_eq (s : StoreState) (repoName : String) :
    changedFilesInRepo s repoName =
      s.addedRepositories.flatMap (fun repo =>
        if repoName = repo.fullName then
          (repo.adrs.filter
            (fun a => decide (a.newAdr = none) && decide (a.editedMd ≠ a.originalMd))).map
            (fun a => dataStructureDataCommit a "changed")
        else []) := by
  unfold changedFilesInRepo
  rw [changedFiles_outer_foldl repoName s.addedRepositories []]
  rw [List.nil_append]

/-- C5 counterexample: an ADR carrying an explicit `newAdr: false` key is
    "not flagged" under the claim's absence-means-false reading (see
    `changedFilesInRepoSpec`, which follows the claim's words) and has
    `editedMd ≠ originalMd`, yet the code's presence test excludes it:
    `changedFilesInRepo` returns nothing for it. -/
theorem changedFilesInRepo_flag_false_counterexample :
    changedFilesInRepo storeFlagFalse "o/r" = [] ∧
    changedFilesInRepoSpec storeFlagFalse "o/r" =
      [{ title := some "0004-e.md", value := some "q", path := "docs/adr/0004-e.md",
         fileSelected := false, fileStatus := "changed" }] ∧
    adrFlagFalse.newAdr ≠ some true ∧
    adrFlagFalse.editedMd ≠ adrFlagFalse.originalMd ∧
    changedFilesInRepo storeFlagFalse "o/r" ≠ changedFilesInRepoSpec storeFlagFalse "o/r" := by
  decide

theorem newFiles_inner_foldl :
    ∀ (adrs : List Adr) (acc : List CommitFile),
      adrs.foldl (fun acc2 newFile => acc2 ++ [dataStructureDataCommit newFile "new"]) acc =
        acc ++ adrs.map (fun a => dataStructureDataCommit a "new")
  | [], acc => by simp
  | a :: t, acc => by
    rw [List.foldl_cons, newFiles_inner_foldl t]
    simp

theorem newFilesInRepo_eq (s : StoreState) (repoName : String) :
    newFilesInRepo s repoName =
      s.addedRepositories.flatMap (fun repo =>
        if repoName = repo.fullName then
          repo.addedAdrs.map (fun a => dataStructureDataCommit a "new")
        else []) := by
  unfold newFilesInRepo
  have haux : ∀ (repos : List Repository) (acc : List CommitFile),
      repos.foldl
        (fun newFiles repo =>
          if repoName = repo.fullName then
            repo.addedAdrs.foldl
              (fun acc2 newFile => acc2 ++ [dataStructureDataCommit newFile "new"]) newFiles
          else newFiles) acc =
      acc ++ repos.flatMap (fun repo =>
        if repoName = repo.fullName then
          repo.addedAdrs.map (fun a => dataStructureDataCommit a "new")
        else []) := by
    intro repos
    induction repos with
    | nil => intro acc; simp
    | cons r t ih =>
      intro acc
      rw [List.foldl_cons]
      by_cases hname : repoName = r.fullName
      · rw [if_pos hname, newFiles_inner_foldl r.addedAdrs acc, ih]
        simp [hname, List.append_assoc]
      · rw [if_neg hname, ih]
        simp [hname]
  rw [haux s.addedRepositories [], List.nil_append]

theorem deletedFiles_inner_foldl :
    ∀ (adrs : List Adr) (acc : List CommitFile),
      adrs.foldl
        (fun acc2 deletedFile =>
          acc2 ++ [{ title := (jsSplit '/' deletedFile.path)[2]?,
                     value := none,
                     path := deletedFile.path,
                     fileSelected := false,
                     fileStatus := "deleted" }]) acc =
        acc ++ adrs.map (fun d =>
          { title := (jsSplit '/' d.path)[2]?,
            value := none,
            path := d.path,
            fileSelected := false,
            fileStatus := "deleted" })
  | [], acc => by simp
  | a :: t, acc => by
    rw [List.foldl_cons, deletedFiles_inner_foldl t]
    simp

theorem deletedFilesInRepo_eq (s : StoreState) (repoName : String) :
    deletedFilesInRepo s repoName =
      s.addedRepositories.flatMap (fun repo =>
        if repoName = repo.fullName then
          repo.deletedAdrs.map (fun d =>
            { title := (jsSplit '/' d.path)[2]?,
              value := none,
              path := d.path,
              fileSelected := false,
              fileStatus := "deleted" })
        else []) := by
  unfold deletedFilesInRepo
  have haux : ∀ (repos : List Repository) (acc : List CommitFile),
      repos.foldl
        (fun deletedFiles repo =>
          if repoName = repo.fullName then
            repo.deletedAdrs.foldl
              (fun acc2 deletedFile =>
                acc2 ++ [{ title := (jsSplit '/' deletedFile.path)[2]?,
                           value := none,
                           path := deletedFile.path,
                           fileSelected := false,
                           fileStatus := "deleted" }]) deletedFiles
          else deletedFiles) acc =
      acc ++ repos.flatMap (fun repo =>
        if repoName = repo.fullName then
          repo.deletedAdrs.map (fun d =>
            { title := (jsSplit '/' d.path)[2]?,
              value := none,
              path := d.path,
              fileSelected := false,
              fileStatus := "deleted" })
        else []) := by
    intro repos
    induction repos with
    | nil => intro acc; simp
    | cons r t ih =>
      intro acc
      rw [List.foldl_cons]
      by_cases hname : repoName = r.fullName
      · rw [if_pos hname, deletedFiles_inner_foldl r.deletedAdrs acc, ih]
        simp [hname, List.append_assoc]
      · rw [if_neg hname, ih]
        simp [hname]
  rw [haux s.addedRepositories [], List.nil_append]

/-! ### C8: disjointness of the three diff sets -/

theorem pathsUniqB_same_path :
    ∀ {l : List Adr}, pathsUniqB l = true → ∀ a ∈ l, ∀ b ∈ l, a.path = b.path → a = b := by
  intro l
  induction l with
  | nil => simp
  | cons x t ih =>
    intro h
    simp only [pathsUniqB, Bool.and_eq_true, List.all_eq_true] at h
    obtain ⟨hx, ht⟩ := h
    intro a ha b hb heq
    rcases List.mem_cons.mp ha with rfl | ha2
    · rcases List.mem_cons.mp hb with rfl | hb2
      · rfl
      · exact absurd heq (by simpa using hx b hb2)
    · rcases List.mem_cons.mp hb with rfl | hb2
      · exact absurd heq.symm (by simpa using hx a ha2)
      · exact ih ht a ha2 b hb2 heq

theorem namesUniqB_same_name :
    ∀ {l : List Repository}, namesUniqB l = true →
      ∀ r1 ∈ l, ∀ r2 ∈ l, r1.fullName = r2.fullName → r1 = r2 := by
  intro l
  induction l with
  | nil => simp
  | cons x t ih =>
    intro h
    simp only [namesUniqB, Bool.and_eq_true, List.all_eq_true] at h
    obtain ⟨hx, ht⟩ := h
    intro r1 h1 r2 h2 heq
    rcases List.mem_cons.mp h1 with rfl | h1b
    · rcases List.mem_cons.mp h2 with rfl | h2b
      · rfl
      · exact absurd heq (by simpa using hx r2 h2b)
    · rcases List.mem_cons.mp h2 with rfl | h2b
      · exact absurd heq.symm (by simpa using hx r1 h1b)
      · exact ih ht r1 h1b r2 h2b heq

theorem mem_flatMap_if_name {γ : Type} (repos : List Repository) (repoName : String)
    (g : Repository → List γ) (c : γ)
    (hc : c ∈ repos.flatMap (fun repo => if repoName = repo.fullName then g repo else [])) :
    ∃ r ∈ repos, repoName = r.fullName ∧ c ∈ g r := by
  obtain ⟨r, hr, hc2⟩ := List.mem_flatMap.mp hc
  by_cases hname : repoName = r.fullName
  · rw [if_pos hname] at hc2
    exact ⟨r, hr, hname, hc2⟩
  · rw [if_neg hname] at hc2
    exact absurd hc2 (List.not_mem_nil c)

/-- C8: for a store satisfying the data-model repository invariants, the
    `changed`, `new` and `deleted` file sets of a repository are pairwise
    disjoint by path. -/
theorem diff_sets_disjoint (s : StoreState) (repoName : String)
    (hinv : storeReposInvariant s) :
    pathsDisjoint (changedFilesInRepo s repoName) (newFilesInRepo s repoName) ∧
    pathsDisjoint (changedFilesInRepo s repoName) (deletedFilesInRepo s repoName) ∧
    pathsDisjoint (newFilesInRepo s repoName) (deletedFilesInRepo s repoName) := by
  obtain ⟨hrepo, hnames⟩ := hinv
  refine ⟨?_, ?_, ?_⟩
  · intro c hc d hd
    rw [changedFilesInRepo_eq] at hc
    rw [newFilesInRepo_eq] at hd
    obtain ⟨r1, hr1, hn1, hc2⟩ := mem_flatMap_if_name _ _ _ _ hc
    obtain ⟨r2, hr2, hn2, hd2⟩ := mem_flatMap_if_name _ _ _ _ hd
    have hr12 : r1 = r2 := namesUniqB_same_name hnames r1 hr1 r2 hr2 (hn1 ▸ hn2)
    subst hr12
    obtain ⟨a1, ha1, hproj1⟩ := List.mem_map.mp hc2
    obtain ⟨a2, ha2, hproj2⟩ := List.mem_map.mp hd2
    obtain ⟨ha1mem, ha1pred⟩ := List.mem_filter.mp ha1
    obtain ⟨hsub, huniq, hflag, _⟩ := hrepo r1 hr1
    intro heq
    rw [← hproj1, ← hproj2] at heq
    have hpatheq : a1.path = a2.path := heq
    have ha2mem : a2 ∈ r1.adrs := hsub a2 ha2
    have ha12 : a1 = a2 := pathsUniqB_same_path huniq a1 ha1mem a2 ha2mem hpatheq
    have h1 : a1.newAdr = none := by
      simp only [Bool.and_eq_true, decide_eq_true_eq] at ha1pred
      exact ha1pred.1
    have h2 : a2.newAdr = some true := hflag a2 ha2
    rw [ha12, h2] at h1
    exact Option.noConfusion h1
  · intro c hc d hd
    rw [changedFilesInRepo_eq] at hc
    rw [deletedFilesInRepo_eq] at hd
    obtain ⟨r1, hr1, hn1, hc2⟩ := mem_flatMap_if_name _ _ _ _ hc
    obtain ⟨r2, hr2, hn2, hd2⟩ := mem_flatMap_if_name _ _ _ _ hd
    have hr12 : r1 = r2 := namesUniqB_same_name hnames r1 hr1 r2 hr2 (hn1 ▸ hn2)
    subst hr12
    obtain ⟨a1, ha1, hproj1⟩ := List.mem_map.mp hc2
    obtain ⟨a2, ha2, hproj2⟩ := List.mem_map.mp hd2
    obtain ⟨ha1mem, _⟩ := List.mem_filter.mp ha1
    obtain ⟨_, _, _, hdel⟩ := hrepo r1 hr1
    intro heq
    rw [← hproj1, ← hproj2] at heq
    have hpatheq : a1.path = a2.path := heq
    exact (hdel a2 ha2 a1 ha1mem) hpatheq.symm
  · intro c hc d hd
    rw [newFilesInRepo_eq] at hc
    rw [deletedFilesInRepo_eq] at hd
    obtain ⟨r1, hr1, hn1, hc2⟩ := mem_flatMap_if_name _ _ _ _ hc
    obtain ⟨r2, hr2, hn2, hd2⟩ := mem_flatMap_if_name _ _ _ _ hd
    have hr12 : r1 = r2 := namesUniqB_same_name hnames r1 hr1 r2 hr2 (hn1 ▸ hn2)
    subst hr12
    obtain ⟨a1, ha1, hproj1⟩ := List.mem_map.mp hc2
    obtain ⟨a2, ha2, hproj2⟩ := List.mem_map.mp hd2
    obtain ⟨hsub, _, _, hdel⟩ := hrepo r1 hr1
    intro heq
    rw [← hproj1, ← hproj2] at heq
    have hpatheq : a1.path = a2.path := heq
    exact (hdel a2 ha2 a1 (hsub a1 ha1)) hpatheq.symm

/-- Witness for C8 at a concrete store satisfying the invariants. -/
theorem diff_sets_disjoint_witness :
    pathsDisjoint (changedFilesInRepo storeSample "o/r") (newFilesInRepo storeSample "o/r") ∧
    pathsDisjoint (changedFilesInRepo storeSample "o/r") (deletedFilesInRepo storeSample "o/r") ∧
    pathsDisjoint (newFilesInRepo storeSample "o/r") (deletedFilesInRepo storeSample "o/r") :=
  diff_sets_disjoint storeSample "o/r"
    (by
      constructor
      · intro r hr
        have hrs : r = repoSample := by simpa [storeSample] using hr
        subst hrs
        unfold repoInvariant
        refine ⟨by decide, by decide, by decide, by decide⟩
      · decide)

/-! ### C1: the opened-ADR invariant across mutations -/

theorem openAdr_inv_of_none (s : StoreState) (x : Option Adr)
    (hcur : s.currentlyEditedAdr = none) :
    storeInvB (openAdr s x).1 = true := by
  unfold openAdr
  by_cases heq : x = s.currentlyEditedAdr
  · rw [if_pos heq]
    show storeInvB s = true
    unfold storeInvB
    rw [hcur]
  · rw [if_neg heq]
    cases x with
    | none =>
      show storeInvB s = true
      unfold storeInvB
      rw [hcur]
    | some adr =>
      dsimp only
      cases hfind : s.addedRepositories.find? (fun repo => decide (adr ∈ repo.adrs)) with
      | none =>
        show storeInvB s = true
        unfold storeInvB
        rw [hcur]
      | some repo =>
        dsimp only
        by_cases hval : isValidAdr adr = true
        · rw [if_pos hval]
          show (isValidAdr adr && s.addedRepositories.any (fun r => decide (adr ∈ r.adrs))) = true
          rw [hval, Bool.true_and, List.any_eq_true]
          exact ⟨repo, List.mem_of_find?_eq_some hfind, by simpa using List.find?_some hfind⟩
        · rw [if_neg hval]
          show storeInvB s = true
          unfold storeInvB
          rw [hcur]

theorem openAnyAdr_inv_of_none (s : StoreState) (hcur : s.currentlyEditedAdr = none) :
    storeInvB (openAnyAdr s).1 = true := by
  unfold openAnyAdr
  dsimp only
  cases hcr : s.currentRepository with
  | some cr =>
    dsimp only
    by_cases h1 : cr ∈ s.addedRepositories.filter (fun repo => !repo.adrs.isEmpty)
    · rw [if_pos h1]
      exact openAdr_inv_of_none s _ hcur
    · rw [if_neg h1]
      cases hemp : (s.addedRepositories.filter (fun repo => !repo.adrs.isEmpty)).isEmpty with
      | false =>
        exact openAdr_inv_of_none s _ hcur
      | true =>
        show storeInvB s = true
        unfold storeInvB
        rw [hcur]
  | none =>
    dsimp only
    cases hemp : (s.addedRepositories.filter (fun repo => !repo.adrs.isEmpty)).isEmpty with
    | false =>
      exact openAdr_inv_of_none s _ hcur
    | true =>
      show storeInvB { s with currentRepository := s.addedRepositories.head? } = true
      unfold storeInvB
      rw [show ({ s with currentRepository := s.addedRepositories.head? } :
        StoreState).currentlyEditedAdr = s.currentlyEditedAdr from rfl, hcur]

theorem ensureSomeAdrIsOpened_inv (s : StoreState) :
    storeInvB (ensureSomeAdrIsOpened s).1 = true := by
  unfold ensureSomeAdrIsOpened
  cases hcur : s.currentlyEditedAdr with
  | none => exact openAnyAdr_inv_of_none _ rfl
  | some cur =>
    dsimp only
    by_cases hc :
      (isValidAdr cur && s.addedRepositories.any (fun repo => decide (cur ∈ repo.adrs))) = true
    · rw [if_pos hc]
      show storeInvB s = true
      unfold storeInvB
      rw [hcur]
      exact hc
    · rw [if_neg hc]
      exact openAnyAdr_inv_of_none _ rfl

theorem mem_set_of_mem_ne {α : Type} :
    ∀ (l : List α) (i : Nat) (u r : α), r ∈ l → l[i]? ≠ some r → r ∈ l.set i u
  | [], _, _, _, hr, _ => absurd hr (List.not_mem_nil _)
  | x :: t, 0, u, r, hr, hne => by
    rcases List.mem_cons.mp hr with rfl | hrt
    · exact absurd (show (r :: t)[0]? = some r by simp) hne
    · rw [List.set_cons_zero]
      exact List.mem_cons_of_mem u hrt
  | x :: t, i + 1, u, r, hr, hne => by
    rw [List.set_cons_succ]
    rcases List.mem_cons.mp hr with rfl | hrt
    · exact List.mem_cons_self r _
    · exact List.mem_cons_of_mem x (mem_set_of_mem_ne t i u r hrt (by simpa using hne))

theorem openAdr_good_inv (s : StoreState) (adr : Adr) (hval : isValidAdr adr = true)
    (hreach : ∃ r ∈ s.addedRepositories, adr ∈ r.adrs) :
    storeInvB (openAdr s (some adr)).1 = true := by
  unfold openAdr
  by_cases heq : some adr = s.currentlyEditedAdr
  · rw [if_pos heq]
    show storeInvB s = true
    unfold storeInvB
    rw [← heq]
    show (isValidAdr adr && s.addedRepositories.any (fun repo => decide (adr ∈ repo.adrs))) = true
    rw [hval, Bool.true_and, List.any_eq_true]
    obtain ⟨r, hr, hmem⟩ := hreach
    exact ⟨r, hr, by simpa using hmem⟩
  · rw [if_neg heq]
    dsimp only
    have hsome : (s.addedRepositories.find? (fun repo => decide (adr ∈ repo.adrs))).isSome := by
      rw [List.find?_isSome]
      obtain ⟨r, hr, hmem⟩ := hreach
      exact ⟨r, hr, by simpa using hmem⟩
    obtain ⟨repo, hrepo⟩ := Option.isSome_iff_exists.mp hsome
    rw [hrepo]
    dsimp only
    rw [if_pos hval]
    show (isValidAdr adr && s.addedRepositories.any (fun r => decide (adr ∈ r.adrs))) = true
    rw [hval, Bool.true_and, List.any_eq_true]
    exact ⟨repo, List.mem_of_find?_eq_some hrepo, by simpa using List.find?_some hrepo⟩

/-- C1 (amended): the opened-ADR invariant — `currentlyEditedAdr`, when set,
    is valid and contained in some added repository — holds unconditionally
    after `addRepositories` (when it succeeds), `removeRepository` and
    `deleteAdr`; after `updateRepository` it holds provided it held before
    and, whenever the opened ADR belonged to the replaced copy, the first
    ADR at its path in the replacement exists and is valid.  (It does NOT
    hold in general after `updateRepository`; see the counterexample.) -/
theorem store_invariant_after_mutations :
    (∀ (s : StoreState) (l : List Repository) (out : StoreState × List StoreEvent),
      addRepositories s l = .ok out → storeInvB out.1 = true) ∧
    (∀ (s : StoreState) (r : Repository), storeInvB (removeRepository s r).1 = true) ∧
    (∀ (s : StoreState) (a : Adr) (r : Repository), storeInvB (deleteAdr s a r).1 = true) ∧
    (∀ (s : StoreState) (u : Repository) (out : StoreState × List StoreEvent),
      storeInvB s = true →
      updateRepository s u = some out →
      (∀ cur, s.currentlyEditedAdr = some cur →
        ∀ index, s.addedRepositories.findIdx?
          (fun repo => decide (repo.fullName = u.fullName)) = some index →
        ∀ oldRepo, s.addedRepositories[index]? = some oldRepo →
        cur ∈ oldRepo.adrs →
        ∃ a, u.adrs.find? (fun adr => decide (adr.path = cur.path)) = some a ∧
          isValidAdr a = true) →
      storeInvB out.1 = true) := by
  refine ⟨?_, ?_, ?_, ?_⟩
  · intro s l out h
    unfold addRepositories at h
    by_cases hc : (collidingRepos s l).length > 0
    · rw [if_pos hc] at h
      exact absurd h (by simp)
    · rw [if_neg hc] at h
      have hout : out = ensureSomeAdrIsOpened
          { s with addedRepositories := s.addedRepositories ++ l } := by
        injection h with h2
        exact h2.symm
      rw [hout]
      exact ensureSomeAdrIsOpened_inv _
  · intro s r
    unfold removeRepository
    exact ensureSomeAdrIsOpened_inv _
  · intro s a r
    unfold deleteAdr
    exact ensureSomeAdrIsOpened_inv _
  · intro s u out hinv hupd hgood
    unfold updateRepository at hupd
    cases hidx : s.addedRepositories.findIdx?
        (fun repo => decide (repo.fullName = u.fullName)) with
    | none =>
      rw [hidx] at hupd
      exact absurd hupd (by simp)
    | some index =>
      rw [hidx] at hupd
      dsimp only at hupd
      cases hget : s.addedRepositories[index]? with
      | none =>
        rw [hget] at hupd
        exact absurd hupd (by simp)
      | some oldRepo =>
        rw [hget] at hupd
        dsimp only at hupd
        have hlt : index < s.addedRepositories.length := (List.getElem?_eq_some.mp hget).1
        cases hcur : s.currentlyEditedAdr with
        | none =>
          rw [hcur] at hupd
          dsimp only at hupd
          have hout : out =
              ({ currentRepository := s.currentRepository, currentlyEditedAdr := none,
                 addedRepositories := s.addedRepositories.set index u, mode := s.mode }, []) := by
            injection hupd with h2
            exact h2.symm
          rw [hout]
          rfl
        | some cur =>
          rw [hcur] at hupd
          dsimp only at hupd
          have hinv2 : (isValidAdr cur &&
              s.addedRepositories.any (fun repo => decide (cur ∈ repo.adrs))) = true := by
            unfold storeInvB at hinv
            rw [hcur] at hinv
            exact hinv
          by_cases hmem : cur ∈ oldRepo.adrs
          · rw [decide_eq_true hmem] at hupd
            rw [if_pos rfl] at hupd
            obtain ⟨a, hfind, haval⟩ := hgood cur hcur index hidx oldRepo hget hmem
            rw [hfind] at hupd
            have hout : out = openAdr
                { currentRepository := s.currentRepository, currentlyEditedAdr := some cur,
                  addedRepositories := s.addedRepositories.set index u, mode := s.mode }
                (some a) := by
              injection hupd with h2
              exact h2.symm
            rw [hout]
            apply openAdr_good_inv _ a haval
            refine ⟨u, ?_, List.mem_of_find?_eq_some hfind⟩
            show u ∈ s.addedRepositories.set index u
            exact List.mem_set s.addedRepositories index hlt u
          · rw [decide_eq_false hmem] at hupd
            rw [if_neg (by simp)] at hupd
            have hout : out =
                ({ currentRepository := s.currentRepository, currentlyEditedAdr := some cur,
                   addedRepositories := s.addedRepositories.set index u, mode := s.mode }, []) := by
              injection hupd with h2
              exact h2.symm
            rw [hout]
            show (isValidAdr cur &&
              (s.addedRepositories.set index u).any (fun repo => decide (cur ∈ repo.adrs))) = true
            rw [Bool.and_eq_true] at hinv2 ⊢
            refine ⟨hinv2.1, ?_⟩
            rw [List.any_eq_true] at hinv2 ⊢
            obtain ⟨r, hr, hrmem⟩ := hinv2.2
            refine ⟨r, ?_, hrmem⟩
            apply mem_set_of_mem_ne s.addedRepositories index u r hr
            rw [hget]
            intro hcontra
            have hor : oldRepo = r := by
              injection hcontra
            rw [hor] at hmem
            exact hmem (by simpa using hrmem)

/-- C1 counterexample: replacing `repoSample` by an ADR-less repository with
    the same name leaves `currentlyEditedAdr` pointing at an ADR of the
    replaced copy — `updateRepository` completes, the opened ADR is still
    set, and the invariant is broken (no self-healing runs). -/
theorem updateRepository_breaks_invariant :
    updateRepository storeSample repoReplacementEmpty = some (storeAfterBadUpdate, []) ∧
    storeAfterBadUpdate.currentlyEditedAdr = some adrA ∧
    storeInvB storeAfterBadUpdate = false := by
  decide

/-- Witness for C1 (amended) at concrete inputs, one per mutation. -/
theorem store_invariant_after_mutations_witness :
    storeInvB (removeRepository storeSample repoSample).1 = true ∧
    storeInvB (deleteAdr storeSample adrA repoSample).1 = true ∧
    (addRepositories storeEmpty [repoOther]).map (fun out => storeInvB out.1) = .ok true ∧
    (updateRepository storeSample repoReplacementGood).map (fun out => storeInvB out.1) =
      some true := by
  refine ⟨store_invariant_after_mutations.2.1 storeSample repoSample,
    store_invariant_after_mutations.2.2.1 storeSample adrA repoSample, ?_, ?_⟩
  · cases heval : addRepositories storeEmpty [repoOther] with
    | error e =>
      have hok : (addRepositories storeEmpty [repoOther]).toOption.isSome = true := by decide
      rw [heval] at hok
      exact absurd hok (by simp [Except.toOption])
    | ok out =>
      rw [Except.map]
      rw [store_invariant_after_mutations.1 storeEmpty [repoOther] out heval]
  · cases heval : updateRepository storeSample repoReplacementGood with
    | none =>
      have hok : (updateRepository storeSample repoReplacementGood).isSome = true := by decide
      rw [heval] at hok
      exact absurd hok (by simp)
    | some out =>
      rw [Option.map_some']
      rw [store_invariant_after_mutations.2.2.2 storeSample repoReplacementGood out
        (by decide) heval ?_]
      intro cur hcur index hidx oldRepo hget hmem
      have hcur2 : cur = adrA := by
        have h2 := hcur.symm.trans (show storeSample.currentlyEditedAdr = some adrA from rfl)
        exact Option.some_inj.mp h2
      have hidx0 : (storeSample.addedRepositories.findIdx?
          (fun repo => decide (repo.fullName = repoReplacementGood.fullName))) = some 0 := by
        decide
      rw [hidx0] at hidx
      have hi0 : index = 0 := (Option.some_inj.mp hidx).symm
      subst hi0
      subst hcur2
      refine ⟨adrA2, by decide, by decide⟩

/-! ### C6: helper lemmas for the splice-while-iterating loop -/

theorem forOfRemoveAux_out_of_range (p : String) :
    ∀ (fuel : Nat) (arr : List Adr) (i : Nat), arr.length ≤ i →
      forOfRemoveAux p fuel arr i = arr
  | 0, arr, i, _ => rfl
  | fuel + 1, arr, i, h => by
    unfold forOfRemoveAux
    rw [dif_neg (by omega)]

theorem getElem_append_cons_length {α : Type} (x : α) :
    ∀ (pre suf : List α) (h : pre.length < (pre ++ x :: suf).length),
      (pre ++ x :: suf).get ⟨pre.length, h⟩ = x
  | [], suf, h => rfl
  | a :: t, suf, h => by
    exact getElem_append_cons_length x t suf (by simp)

theorem findIdx_append_cons {α : Type} (q : α → Bool) (x : α) :
    ∀ (pre suf : List α), (∀ a ∈ pre, q a = false) → q x = true →
      (pre ++ x :: suf).findIdx q = pre.length
  | [], suf, _, hx => by
    rw [List.nil_append, List.findIdx_cons, hx]
    rfl
  | a :: t, suf, hpre, hx => by
    rw [show ((a :: t) ++ x :: suf) = a :: (t ++ x :: suf) from rfl, List.findIdx_cons]
    rw [hpre a (List.mem_cons_self a t)]
    rw [findIdx_append_cons q x t suf (fun b hb => hpre b (List.mem_cons_of_mem a hb)) hx]
    rfl

theorem eraseIdx_append_cons_length {α : Type} (x : α) :
    ∀ (pre suf : List α), (pre ++ x :: suf).eraseIdx pre.length = pre ++ suf
  | [], suf => rfl
  | a :: t, suf => by
    rw [show ((a :: t) ++ x :: suf) = a :: (t ++ x :: suf) from rfl,
      show (a :: t).length = t.length + 1 from rfl, List.eraseIdx_cons_succ,
      eraseIdx_append_cons_length x t suf]
    rfl

theorem pathsUniqB_cons_head {a : Adr} {t : List Adr} (h : pathsUniqB (a :: t) = true) :
    ∀ b ∈ t, a.path ≠ b.path := by
  intro b hb
  simp only [pathsUniqB, Bool.and_eq_true, List.all_eq_true] at h
  simpa using h.1 b hb

theorem pathsUniqB_cons_tail {a : Adr} {t : List Adr} (h : pathsUniqB (a :: t) = true) :
    pathsUniqB t = true := by
  simp only [pathsUniqB, Bool.and_eq_true] at h
  exact h.2

theorem pathsUniqB_append_right :
    ∀ {l1 l2 : List Adr}, pathsUniqB (l1 ++ l2) = true → pathsUniqB l2 = true := by
  intro l1
  induction l1 with
  | nil => intro l2 h; exact h
  | cons a t ih => intro l2 h; exact ih (pathsUniqB_cons_tail h)

theorem pathsUniqB_cons_of (a : Adr) (t : List Adr)
    (h1 : ∀ b ∈ t, a.path ≠ b.path) (h2 : pathsUniqB t = true) :
    pathsUniqB (a :: t) = true := by
  simp only [pathsUniqB, Bool.and_eq_true, List.all_eq_true]
  exact ⟨fun b hb => by simpa using h1 b hb, h2⟩

theorem pathsUniqB_remove_mid :
    ∀ (l1 : List Adr) (x : Adr) (l2 : List Adr),
      pathsUniqB (l1 ++ x :: l2) = true → pathsUniqB (l1 ++ l2) = true
  | [], x, l2, h => pathsUniqB_cons_tail h
  | a :: t, x, l2, h => by
    rw [List.cons_append] at h
    rw [List.cons_append]
    refine pathsUniqB_cons_of a (t ++ l2) ?_ (pathsUniqB_remove_mid t x l2 (pathsUniqB_cons_tail h))
    intro b hb
    refine pathsUniqB_cons_head h b ?_
    rcases List.mem_append.mp hb with hb1 | hb2
    · exact List.mem_append_left _ hb1
    · exact List.mem_append_right _ (List.mem_cons_of_mem x hb2)

theorem pathsUniqB_filter (q : Adr → Bool) :
    ∀ {l : List Adr}, pathsUniqB l = true → pathsUniqB (l.filter q) = true := by
  intro l
  induction l with
  | nil => intro h; exact h
  | cons a t ih =>
    intro h
    rw [List.filter_cons]
    by_cases hq : q a = true
    · rw [if_pos hq]
      refine pathsUniqB_cons_of a (t.filter q) ?_ (ih (pathsUniqB_cons_tail h))
      intro b hb
      exact pathsUniqB_cons_head h b (List.mem_of_mem_filter hb)
    · rw [if_neg hq]
      exact ih (pathsUniqB_cons_tail h)

theorem forOfRemoveAux_spec (p : String) :
    ∀ (fuel : Nat) (pre suf : List Adr), suf.length ≤ fuel →
      pathsUniqB (pre ++ suf) = true →
      (∀ a ∈ pre, a.path ≠ p) →
      forOfRemoveAux p fuel (pre ++ suf) pre.length =
        pre ++ suf.filter (fun a => decide (a.path ≠ p)) := by
  intro fuel
  induction fuel with
  | zero =>
    intro pre suf hlen _ _
    have hnil : suf = [] := List.eq_nil_of_length_eq_zero (Nat.le_zero.mp hlen)
    subst hnil
    simp [forOfRemoveAux]
  | succ m ih =>
    intro pre suf hlen huniq hpre
    cases suf with
    | nil =>
      rw [forOfRemoveAux_out_of_range p (m + 1) (pre ++ []) pre.length (by simp)]
      simp
    | cons entry rest =>
      unfold forOfRemoveAux
      have hlt : pre.length < (pre ++ entry :: rest).length := by simp
      rw [dif_pos hlt, getElem_append_cons_length entry pre rest hlt]
      by_cases hp : p = entry.path
      · rw [if_pos hp]
        have hfidx : (pre ++ entry :: rest).findIdx (fun a => decide (a = entry)) =
            pre.length := by
          refine findIdx_append_cons _ entry pre rest ?_ (by simp)
          intro a ha
          simp only [decide_eq_false_iff_not]
          intro heq
          exact hpre a ha (heq ▸ hp.symm)
        rw [hfidx, eraseIdx_append_cons_length entry pre rest]
        have hrest : ∀ b ∈ rest, b.path ≠ p := by
          intro b hb heq
          exact pathsUniqB_cons_head (pathsUniqB_append_right huniq) b hb (hp.symm.trans heq.symm)
        cases rest with
        | nil =>
          rw [List.append_nil, forOfRemoveAux_out_of_range p m pre (pre.length + 1) (by omega)]
          simp [List.filter_cons, hp]
        | cons r0 rest2 =>
          have heq1 : pre ++ r0 :: rest2 = (pre ++ [r0]) ++ rest2 := by simp
          have heq2 : pre.length + 1 = (pre ++ [r0]).length := by simp
          rw [heq1, heq2]
          rw [ih (pre ++ [r0]) rest2 (by simp at hlen ⊢; omega) ?_ ?_]
          · have hr0ne : ¬ (r0.path = p) := hrest r0 (List.mem_cons_self r0 rest2)
            have hpent : ¬ (entry.path ≠ p) := fun hc => hc hp.symm
            simp [List.filter_cons, hpent, hr0ne]
          · rw [← heq1]
            exact pathsUniqB_remove_mid pre entry (r0 :: rest2) huniq
          · intro a ha
            rcases List.mem_append.mp ha with ha1 | ha2
            · exact hpre a ha1
            · rw [List.mem_singleton.mp ha2]
              exact hrest r0 (List.mem_cons_self r0 rest2)
      · rw [if_neg hp]
        have heq1 : pre ++ entry :: rest = (pre ++ [entry]) ++ rest := by simp
        have heq2 : pre.length + 1 = (pre ++ [entry]).length := by simp
        rw [heq1, heq2]
        rw [ih (pre ++ [entry]) rest (by simp at hlen ⊢; omega) (by rw [← heq1]; exact huniq) ?_]
        · have hentryne : ¬ (entry.path = p) := fun heq => hp heq.symm
          simp [List.filter_cons, hentryne]
        · intro a ha
          rcases List.mem_append.mp ha with ha1 | ha2
          · exact hpre a ha1
          · rw [List.mem_singleton.mp ha2]
            exact fun heq => hp heq.symm

/-- Under path-uniqueness the splice-while-iterating loop is exactly a
    filter. -/
theorem forOfRemove_eq_filter (p : String) (l : List Adr) (h : pathsUniqB l = true) :
    forOfRemove p l = l.filter (fun a => decide (a.path ≠ p)) := by
  unfold forOfRemove
  have := forOfRemoveAux_spec p l.length [] l (le_refl _) (by simpa using h) (by simp)
  simpa using this

/-! ### C6: handler characterizations under path-uniqueness -/

theorem handleNew_eq_filter (file : PushedFile) (repoName : String) (repos : List Repository)
    (huniq : uniqAddedDeleted repoName repos) :
    handleUpdateLocalStorageNew file repoName repos =
      repos.map (fun repo =>
        if repoName = repo.fullName then
          { repo with
            addedAdrs := repo.addedAdrs.filter (fun a => decide (a.path ≠ file.path)),
            adrs := repo.adrs.map (fun repoEntry =>
              if file.path = repoEntry.path then
                { repoEntry with newAdr := none, originalMd := repoEntry.editedMd }
              else repoEntry) }
        else repo) := by
  unfold handleUpdateLocalStorageNew
  apply List.map_congr_left
  intro r hr
  by_cases hname : repoName = r.fullName
  · rw [if_pos hname, if_pos hname,
      forOfRemove_eq_filter file.path r.addedAdrs (huniq r hr hname).1]
  · rw [if_neg hname, if_neg hname]

theorem handleDeleted_eq_filter (file : PushedFile) (repoName : String)
    (repos : List Repository) (huniq : uniqAddedDeleted repoName repos) :
    handleUpdateLocalStorageDeleted file repoName repos =
      repos.map (fun repo =>
        if repoName = repo.fullName then
          { repo with
            deletedAdrs := repo.deletedAdrs.filter (fun a => decide (a.path ≠ file.path)) }
        else repo) := by
  unfold handleUpdateLocalStorageDeleted
  apply List.map_congr_left
  intro r hr
  by_cases hname : repoName = r.fullName
  · rw [if_pos hname, if_pos hname,
      forOfRemove_eq_filter file.path r.deletedAdrs (huniq r hr hname).2]
  · rw [if_neg hname, if_neg hname]

theorem uniq_applyPushedFile (f : PushedFile) (repoName : String) (repos : List Repository)
    (huniq : uniqAddedDeleted repoName repos) :
    uniqAddedDeleted repoName (applyPushedFile f repoName repos) := by
  unfold applyPushedFile
  split
  · rw [handleNew_eq_filter f repoName repos huniq]
    intro r' hr' hname
    obtain ⟨r, hr, hmap⟩ := List.mem_map.mp hr'
    by_cases hn : repoName = r.fullName
    · rw [if_pos hn] at hmap
      rw [← hmap]
      exact ⟨pathsUniqB_filter _ (huniq r hr hn).1, (huniq r hr hn).2⟩
    · rw [if_neg hn] at hmap
      rw [← hmap]
      exact absurd (hmap ▸ hname) hn
  · unfold handleUpdateLocalStorageChanged
    intro r' hr' hname
    obtain ⟨r, hr, hmap⟩ := List.mem_map.mp hr'
    by_cases hn : repoName = r.fullName
    · rw [if_pos hn] at hmap
      rw [← hmap]
      exact ⟨(huniq r hr hn).1, (huniq r hr hn).2⟩
    · rw [if_neg hn] at hmap
      rw [← hmap]
      exact absurd (hmap ▸ hname) hn
  · rw [handleDeleted_eq_filter f repoName repos huniq]
    intro r' hr' hname
    obtain ⟨r, hr, hmap⟩ := List.mem_map.mp hr'
    by_cases hn : repoName = r.fullName
    · rw [if_pos hn] at hmap
      rw [← hmap]
      exact ⟨(huniq r hr hn).1, pathsUniqB_filter _ (huniq r hr hn).2⟩
    · rw [if_neg hn] at hmap
      rw [← hmap]
      exact absurd (hmap ▸ hname) hn
  · exact huniq

/-! ### C6: pointwise facts about the `adrs` rewriting maps -/

theorem adrsMap_new_establishes (fpath : String) (adrs : List Adr) :
    ∀ a ∈ adrs.map (fun b =>
        if fpath = b.path then { b with newAdr := none, originalMd := b.editedMd } else b),
      a.path = fpath → a.newAdr = none ∧ a.originalMd = a.editedMd := by
  intro a ha hpath
  obtain ⟨b, hb, hba⟩ := List.mem_map.mp ha
  by_cases hm : fpath = b.path
  · rw [if_pos hm] at hba
    rw [← hba]
    exact ⟨rfl, rfl⟩
  · rw [if_neg hm] at hba
    rw [hba] at hm
    exact absurd hpath.symm hm

theorem adrsMap_new_preserves_new (fpath gpath : String) (adrs : List Adr)
    (h : ∀ b ∈ adrs, b.path = gpath → b.newAdr = none ∧ b.originalMd = b.editedMd) :
    ∀ a ∈ adrs.map (fun b =>
        if fpath = b.path then { b with newAdr := none, originalMd := b.editedMd } else b),
      a.path = gpath → a.newAdr = none ∧ a.originalMd = a.editedMd := by
  intro a ha hpath
  obtain ⟨b, hb, hba⟩ := List.mem_map.mp ha
  by_cases hm : fpath = b.path
  · rw [if_pos hm] at hba
    rw [← hba]
    exact ⟨rfl, rfl⟩
  · rw [if_neg hm] at hba
    rw [← hba]
    refine h b hb ?_
    rw [← hba] at hpath
    exact hpath

theorem adrsMap_changed_establishes (fpath : String) (adrs : List Adr) :
    ∀ a ∈ adrs.map (fun b =>
        if fpath = b.path then { b with originalMd := b.editedMd } else b),
      a.path = fpath → a.originalMd = a.editedMd := by
  intro a ha hpath
  obtain ⟨b, hb, hba⟩ := List.mem_map.mp ha
  by_cases hm : fpath = b.path
  · rw [if_pos hm] at hba
    rw [← hba]
  · rw [if_neg hm] at hba
    rw [hba] at hm
    exact absurd hpath.symm hm

theorem adrsMap_changed_preserves_new (fpath gpath : String) (adrs : List Adr)
    (h : ∀ b ∈ adrs, b.path = gpath → b.newAdr = none ∧ b.originalMd = b.editedMd) :
    ∀ a ∈ adrs.map (fun b =>
        if fpath = b.path then { b with originalMd := b.editedMd } else b),
      a.path = gpath → a.newAdr = none ∧ a.originalMd = a.editedMd := by
  intro a ha hpath
  obtain ⟨b, hb, hba⟩ := List.mem_map.mp ha
  have hbp : b.path = gpath := by
    by_cases hm : fpath = b.path
    · rw [if_pos hm] at hba
      rw [← hba] at hpath
      exact hpath
    · rw [if_neg hm] at hba
      rw [← hba] at hpath
      exact hpath
  by_cases hm : fpath = b.path
  · rw [if_pos hm] at hba
    rw [← hba]
    exact ⟨(h b hb hbp).1, rfl⟩
  · rw [if_neg hm] at hba
    rw [← hba]
    exact h b hb hbp

theorem adrsMap_new_preserves_changed (fpath gpath : String) (adrs : List Adr)
    (h : ∀ b ∈ adrs, b.path = gpath → b.originalMd = b.editedMd) :
    ∀ a ∈ adrs.map (fun b =>
        if fpath = b.path then { b with newAdr := none, originalMd := b.editedMd } else b),
      a.path = gpath → a.originalMd = a.editedMd := by
  intro a ha hpath
  obtain ⟨b, hb, hba⟩ := List.mem_map.mp ha
  by_cases hm : fpath = b.path
  · rw [if_pos hm] at hba
    rw [← hba]
  · rw [if_neg hm] at hba
    rw [← hba]
    refine h b hb ?_
    rw [← hba] at hpath
    exact hpath

theorem adrsMap_changed_preserves_changed (fpath gpath : String) (adrs : List Adr)
    (h : ∀ b ∈ adrs, b.path = gpath → b.originalMd = b.editedMd) :
    ∀ a ∈ adrs.map (fun b =>
        if fpath = b.path then { b with originalMd := b.editedMd } else b),
      a.path = gpath → a.originalMd = a.editedMd := by
  intro a ha hpath
  obtain ⟨b, hb, hba⟩ := List.mem_map.mp ha
  by_cases hm : fpath = b.path
  · rw [if_pos hm] at hba
    rw [← hba]
  · rw [if_neg hm] at hba
    rw [← hba]
    refine h b hb ?_
    rw [← hba] at hpath
    exact hpath

/-! ### C6: one pass establishes the processed state, later passes keep it -/

theorem processed_applyPushedFile (f : PushedFile) (repoName : String)
    (repos : List Repository) (huniq : uniqAddedDeleted repoName repos) :
    processedFile f repoName (applyPushedFile f repoName repos) := by
  unfold applyPushedFile
  split
  next heq =>
    rw [handleNew_eq_filter f repoName repos huniq]
    intro r' hr' hname
    obtain ⟨r, hr, hmap⟩ := List.mem_map.mp hr'
    refine ⟨?_, ?_, ?_⟩
    · intro _
      by_cases hn : repoName = r.fullName
      · rw [if_pos hn] at hmap
        rw [← hmap]
        constructor
        · dsimp only
          intro a ha
          have := (List.mem_filter.mp ha).2
          simpa using this
        · exact adrsMap_new_establishes f.path r.adrs
      · rw [if_neg hn] at hmap
        exact absurd (hmap ▸ hname) hn
    · intro hch
      rw [heq] at hch
      exact absurd hch (by decide)
    · intro hdel
      rw [heq] at hdel
      exact absurd hdel (by decide)
  next heq =>
    unfold handleUpdateLocalStorageChanged
    intro r' hr' hname
    obtain ⟨r, hr, hmap⟩ := List.mem_map.mp hr'
    refine ⟨?_, ?_, ?_⟩
    · intro hnew
      rw [heq] at hnew
      exact absurd hnew (by decide)
    · intro _
      by_cases hn : repoName = r.fullName
      · rw [if_pos hn] at hmap
        rw [← hmap]
        exact adrsMap_changed_establishes f.path r.adrs
      · rw [if_neg hn] at hmap
        exact absurd (hmap ▸ hname) hn
    · intro hdel
      rw [heq] at hdel
      exact absurd hdel (by decide)
  next heq =>
    rw [handleDeleted_eq_filter f repoName repos huniq]
    intro r' hr' hname
    obtain ⟨r, hr, hmap⟩ := List.mem_map.mp hr'
    refine ⟨?_, ?_, ?_⟩
    · intro hnew
      rw [heq] at hnew
      exact absurd hnew (by decide)
    · intro hch
      rw [heq] at hch
      exact absurd hch (by decide)
    · intro _
      by_cases hn : repoName = r.fullName
      · rw [if_pos hn] at hmap
        rw [← hmap]
        dsimp only
        intro a ha
        have := (List.mem_filter.mp ha).2
        simpa using this
      · rw [if_neg hn] at hmap
        exact absurd (hmap ▸ hname) hn
  next hne1 hne2 hne3 =>
    intro r' hr' hname
    exact ⟨fun h => absurd h hne1, fun h => absurd h hne2, fun h => absurd h hne3⟩

theorem processed_preserved (f g : PushedFile) (repoName : String)
    (repos : List Repository) (huniq : uniqAddedDeleted repoName repos)
    (hproc : processedFile g repoName repos) :
    processedFile g repoName (applyPushedFile f repoName repos) := by
  unfold applyPushedFile
  split
  · rw [handleNew_eq_filter f repoName repos huniq]
    intro r' hr' hname
    obtain ⟨r, hr, hmap⟩ := List.mem_map.mp hr'
    by_cases hn : repoName = r.fullName
    · rw [if_pos hn] at hmap
      obtain ⟨hp1, hp2, hp3⟩ := hproc r hr hn
      rw [← hmap]
      refine ⟨?_, ?_, ?_⟩
      · intro hnew
        obtain ⟨h1, h2⟩ := hp1 hnew
        refine ⟨?_, adrsMap_new_preserves_new f.path g.path r.adrs h2⟩
        intro a ha
        exact h1 a (List.mem_of_mem_filter ha)
      · intro hch
        exact adrsMap_new_preserves_changed f.path g.path r.adrs (hp2 hch)
      · intro hdel
        exact hp3 hdel
    · rw [if_neg hn] at hmap
      rw [← hmap]
      exact hproc r hr (hmap ▸ hname)
  · unfold handleUpdateLocalStorageChanged
    intro r' hr' hname
    obtain ⟨r, hr, hmap⟩ := List.mem_map.mp hr'
    by_cases hn : repoName = r.fullName
    · rw [if_pos hn] at hmap
      obtain ⟨hp1, hp2, hp3⟩ := hproc r hr hn
      rw [← hmap]
      refine ⟨?_, ?_, ?_⟩
      · intro hnew
        obtain ⟨h1, h2⟩ := hp1 hnew
        exact ⟨h1, adrsMap_changed_preserves_new f.path g.path r.adrs h2⟩
      · intro hch
        exact adrsMap_changed_preserves_changed f.path g.path r.adrs (hp2 hch)
      · intro hdel
        exact hp3 hdel
    · rw [if_neg hn] at hmap
      rw [← hmap]
      exact hproc r hr (hmap ▸ hname)
  · rw [handleDeleted_eq_filter f repoName repos huniq]
    intro r' hr' hname
    obtain ⟨r, hr, hmap⟩ := List.mem_map.mp hr'
    by_cases hn : repoName = r.fullName
    · rw [if_pos hn] at hmap
      obtain ⟨hp1, hp2, hp3⟩ := hproc r hr hn
      rw [← hmap]
      refine ⟨hp1, hp2, ?_⟩
      intro hdel a ha
      exact hp3 hdel a (List.mem_of_mem_filter ha)
    · rw [if_neg hn] at hmap
      rw [← hmap]
      exact hproc r hr (hmap ▸ hname)
  · exact hproc

/-! ### C6: a processed file's handler is the identity -/

theorem applyPushedFile_id (f : PushedFile) (repoName : String)
    (repos : List Repository) (huniq : uniqAddedDeleted repoName repos)
    (hproc : processedFile f repoName repos) :
    applyPushedFile f repoName repos = repos := by
  unfold applyPushedFile
  split
  next heq =>
    rw [handleNew_eq_filter f repoName repos huniq]
    have hid : ∀ r ∈ repos,
        (if repoName = r.fullName then
          ({ r with
            addedAdrs := r.addedAdrs.filter (fun a => decide (a.path ≠ f.path)),
            adrs := r.adrs.map (fun repoEntry =>
              if f.path = repoEntry.path then
                { repoEntry with newAdr := none, originalMd := repoEntry.editedMd }
              else repoEntry) } : Repository)
          else r) = r := by
      intro r hr
      by_cases hn : repoName = r.fullName
      · rw [if_pos hn]
        obtain ⟨h1, h2⟩ := (hproc r hr hn).1 heq
        have hadd : r.addedAdrs.filter (fun a => decide (a.path ≠ f.path)) = r.addedAdrs := by
          rw [List.filter_eq_self]
          intro a ha
          simpa using h1 a ha
        have hadrs : r.adrs.map (fun repoEntry =>
            if f.path = repoEntry.path then
              { repoEntry with newAdr := none, originalMd := repoEntry.editedMd }
            else repoEntry) = r.adrs := by
          have hpt : ∀ a ∈ r.adrs,
              (if f.path = a.path then
                { a with newAdr := none, originalMd := a.editedMd } else a) = id a := by
            intro a ha
            by_cases hm : f.path = a.path
            · rw [if_pos hm]
              obtain ⟨hna, hom⟩ := h2 a ha hm.symm
              show ({ a with newAdr := none, originalMd := a.editedMd } : Adr) = a
              cases a with
              | mk aid apath aorig aedit anew =>
                dsimp only at hna hom ⊢
                rw [hna, hom]
            · rw [if_neg hm]
              rfl
          rw [List.map_congr_left hpt, List.map_id]
        rw [hadd, hadrs]
      · rw [if_neg hn]
    rw [List.map_congr_left hid]
    simp
  next heq =>
    unfold handleUpdateLocalStorageChanged
    have hid : ∀ r ∈ repos,
        (if repoName = r.fullName then
          ({ r with
            adrs := r.adrs.map (fun repoEntry =>
              if f.path = repoEntry.path then
                { repoEntry with originalMd := repoEntry.editedMd }
              else repoEntry) } : Repository)
          else r) = r := by
      intro r hr
      by_cases hn : repoName = r.fullName
      · rw [if_pos hn]
        have h2 := (hproc r hr hn).2.1 heq
        have hadrs : r.adrs.map (fun repoEntry =>
            if f.path = repoEntry.path then
              { repoEntry with originalMd := repoEntry.editedMd }
            else repoEntry) = r.adrs := by
          have hpt : ∀ a ∈ r.adrs,
              (if f.path = a.path then { a with originalMd := a.editedMd } else a) = id a := by
            intro a ha
            by_cases hm : f.path = a.path
            · rw [if_pos hm]
              have hom := h2 a ha hm.symm
              show ({ a with originalMd := a.editedMd } : Adr) = a
              cases a with
              | mk aid apath aorig aedit anew =>
                dsimp only at hom ⊢
                rw [hom]
            · rw [if_neg hm]
              rfl
          rw [List.map_congr_left hpt, List.map_id]
        rw [hadrs]
      · rw [if_neg hn]
    rw [List.map_congr_left hid]
    simp
  next heq =>
    rw [handleDeleted_eq_filter f repoName repos huniq]
    have hid : ∀ r ∈ repos,
        (if repoName = r.fullName then
          ({ r with
            deletedAdrs := r.deletedAdrs.filter (fun a => decide (a.path ≠ f.path)) } :
          Repository) else r) = r := by
      intro r hr
      by_cases hn : repoName = r.fullName
      · rw [if_pos hn]
        have h3 := (hproc r hr hn).2.2 heq
        have hdel : r.deletedAdrs.filter (fun a => decide (a.path ≠ f.path)) =
            r.deletedAdrs := by
          rw [List.filter_eq_self]
          intro a ha
          simpa using h3 a ha
        rw [hdel]
      · rw [if_neg hn]
    rw [List.map_congr_left hid]
    simp
  · rfl

/-! ### C6: batch-level lemmas -/

theorem uniq_batch (repoName : String) :
    ∀ (files : List PushedFile) (repos : List Repository),
      uniqAddedDeleted repoName repos →
      uniqAddedDeleted repoName (updateLocalStorageAfterCommit files repoName repos)
  | [], _, hu => hu
  | f :: fs, repos, hu =>
    uniq_batch repoName fs (applyPushedFile f repoName repos)
      (uniq_applyPushedFile f repoName repos hu)

theorem processed_preserved_batch (g : PushedFile) (repoName : String) :
    ∀ (files : List PushedFile) (repos : List Repository),
      uniqAddedDeleted repoName repos →
      processedFile g repoName repos →
      processedFile g repoName (updateLocalStorageAfterCommit files repoName repos)
  | [], _, _, hp => hp
  | f :: fs, repos, hu, hp =>
    processed_preserved_batch g repoName fs (applyPushedFile f repoName repos)
      (uniq_applyPushedFile f repoName repos hu)
      (processed_preserved f g repoName repos hu hp)

theorem processed_batch (repoName : String) :
    ∀ (files : List PushedFile) (repos : List Repository),
      uniqAddedDeleted repoName repos →
      ∀ f ∈ files, processedFile f repoName (updateLocalStorageAfterCommit files repoName repos)
  | [], _, _ => by intro f hf; exact absurd hf (List.not_mem_nil f)
  | f :: fs, repos, hu => by
    intro g hg
    rcases List.mem_cons.mp hg with rfl | hgs
    · exact processed_preserved_batch g repoName fs (applyPushedFile g repoName repos)
        (uniq_applyPushedFile g repoName repos hu)
        (processed_applyPushedFile g repoName repos hu)
    · exact processed_batch repoName fs (applyPushedFile f repoName repos)
        (uniq_applyPushedFile f repoName repos hu) g hgs

theorem batch_id (repoName : String) :
    ∀ (files : List PushedFile) (repos : List Repository),
      uniqAddedDeleted repoName repos →
      (∀ f ∈ files, processedFile f repoName repos) →
      updateLocalStorageAfterCommit files repoName repos = repos
  | [], _, _, _ => rfl
  | f :: fs, repos, hu, hall => by
    show updateLocalStorageAfterCommit fs repoName (applyPushedFile f repoName repos) = repos
    rw [applyPushedFile_id f repoName repos hu (hall f (List.mem_cons_self f fs))]
    exact batch_id repoName fs repos hu (fun g hg => hall g (List.mem_cons_of_mem f hg))

/-! ### C6: the claim theorem, counterexample and witness -/

/-- C6 (amended): provided paths are pairwise distinct within `addedAdrs` and
    within `deletedAdrs` of every repository with the given name,
    `updateLocalStorageAfterCommit` processes each pushed file by type — a
    `"new"` file removes the matching-path entry from `addedAdrs` and, on
    matching `adrs` entries, drops the `newAdr` key and sets
    `originalMd := editedMd`; a `"changed"` file sets
    `originalMd := editedMd` on matching `adrs` entries; a `"deleted"` file
    removes the matching-path entry from `deletedAdrs` — and applying the
    same batch a second time is a no-op.  (Without the uniqueness proviso
    idempotence fails; see the counterexample.) -/
theorem updateLocalStorageAfterCommit_spec (pushedFiles : List PushedFile)
    (repoName : String) (repos : List Repository)
    (huniq : uniqAddedDeleted repoName repos) :
    (∀ file : PushedFile, handleUpdateLocalStorageNew file repoName repos =
      repos.map (fun repo =>
        if repoName = repo.fullName then
          { repo with
            addedAdrs := repo.addedAdrs.filter (fun a => decide (a.path ≠ file.path)),
            adrs := repo.adrs.map (fun repoEntry =>
              if file.path = repoEntry.path then
                { repoEntry with newAdr := none, originalMd := repoEntry.editedMd }
              else repoEntry) }
        else repo)) ∧
    (∀ file : PushedFile, handleUpdateLocalStorageChanged file repoName repos =
      repos.map (fun repo =>
        if repoName = repo.fullName then
          { repo with
            adrs := repo.adrs.map (fun repoEntry =>
              if file.path = repoEntry.path then
                { repoEntry with originalMd := repoEntry.editedMd }
              else repoEntry) }
        else repo)) ∧
    (∀ file : PushedFile, handleUpdateLocalStorageDeleted file repoName repos =
      repos.map (fun repo =>
        if repoName = repo.fullName then
          { repo with
            deletedAdrs := repo.deletedAdrs.filter (fun a => decide (a.path ≠ file.path)) }
        else repo)) ∧
    updateLocalStorageAfterCommit pushedFiles repoName
      (updateLocalStorageAfterCommit pushedFiles repoName repos) =
      updateLocalStorageAfterCommit pushedFiles repoName repos := by
  refine ⟨fun file => handleNew_eq_filter file repoName repos huniq,
    fun file => rfl,
    fun file => handleDeleted_eq_filter file repoName repos huniq, ?_⟩
  exact batch_id repoName pushedFiles (updateLocalStorageAfterCommit pushedFiles repoName repos)
    (uniq_batch repoName pushedFiles repos huniq)
    (processed_batch repoName pushedFiles repos huniq)

/-- C6 counterexample: with two same-path entries in `deletedAdrs`, the
    splice-while-iterating loop removes only the first on the first pass
    (the iteration skips the element after a removal) and the second on the
    second pass — `updateLocalStorageAfterCommit` with the same batch twice
    is NOT a no-op. -/
theorem updateLocalStorageAfterCommit_not_idempotent :
    (updateLocalStorageAfterCommit pushedDeletedDup "o/r" reposDupDeleted).map
      (fun r => r.deletedAdrs) = [[adrDup2]] ∧
    (updateLocalStorageAfterCommit pushedDeletedDup "o/r"
      (updateLocalStorageAfterCommit pushedDeletedDup "o/r" reposDupDeleted)).map
      (fun r => r.deletedAdrs) = [[]] ∧
    updateLocalStorageAfterCommit pushedDeletedDup "o/r"
      (updateLocalStorageAfterCommit pushedDeletedDup "o/r" reposDupDeleted) ≠
      updateLocalStorageAfterCommit pushedDeletedDup "o/r" reposDupDeleted := by
  decide

/-- Witness for C6 (amended) at a concrete input with unique paths:
    publishing the new ADR of `repoSample` twice equals publishing it
    once. -/
theorem updateLocalStorageAfterCommit_spec_witness :
    updateLocalStorageAfterCommit pushedNewC "o/r"
      (updateLocalStorageAfterCommit pushedNewC "o/r" [repoSample]) =
      updateLocalStorageAfterCommit pushedNewC "o/r" [repoSample] :=
  (updateLocalStorageAfterCommit_spec pushedNewC "o/r" [repoSample]
    (by
      intro r hr hname
      have hrs : r = repoSample := by simpa using hr
      subst hrs
      exact ⟨by decide, by decide⟩)).2.2.2

end AdrManager
